import Mathlib

/-!
Shallow embedding of the task execution core of the AI code editor agent:
`src/task_state.py` (TaskState / TaskPlan), `src/utils/path_utils.py`
(PathUtils.file_exists), and `src/agent_core.py` (AgentContext, AgentAction,
update_task_state, execute_tool, plan_tasks fallbacks, and the task execution
loop of AICodeAgent.execute).

The filesystem is modelled as a partial map from path strings to directory
entries.  Python dictionaries are modelled as association lists maintained by
`dictInsert` (update the existing key, else append), which matches insertion
ordered dict semantics.  Mutating methods are modelled by explicit state
passing: a method that mutates `self` and returns `r` becomes a Lean function
returning the updated value together with `r`.
-/

/-- A directory entry: whether the path is a regular file, and its size. -/
structure FSEntry where
  isFile : Bool
  size : Nat
deriving DecidableEq

/-- A filesystem snapshot: `none` when the path does not exist. -/
def FS : Type := String → Option FSEntry

namespace PathUtils

/-- `PathUtils.file_exists` (path_utils.py lines 214-238): true iff the path
exists, is a regular file, and has size > 0; any OS error yields false. -/
def file_exists (fs : FS) (path : String) : Bool :=
  match fs path with
  | none => false
  | some e => e.isFile && decide (0 < e.size)

end PathUtils

/-- Insertion-ordered dict update: replace the value at an existing key,
otherwise append the new binding at the end. -/
def dictInsert {α β : Type} [DecidableEq α] : List (α × β) → α → β → List (α × β)
  | [], k, v => [(k, v)]
  | p :: rest, k, v => if p.1 = k then (k, v) :: rest else p :: dictInsert rest k v

/-- Dict lookup on an association list. -/
def dictGet {α β : Type} [DecidableEq α] : List (α × β) → α → Option β
  | [], _ => none
  | p :: rest, k => if p.1 = k then some p.2 else dictGet rest k

/-- `TaskStatus` (task_state.py lines 14-20). -/
inductive TaskStatus
  | pending
  | in_progress
  | done
  | failed
  | skipped
deriving DecidableEq

/-- `TaskState` (task_state.py lines 22-37). -/
structure TaskState where
  id : Int
  name : String
  description : String
  status : TaskStatus
  files_expected : List String := []
  files_created : List String := []
  files_verified : List String := []
  tool_used : Option String := none
  error : Option String := none
  iteration_started : Option Nat := none
  iteration_completed : Option Nat := none
  retry_count : Nat := 0
  max_retries : Nat := 3
deriving DecidableEq

/-- The verification dict built by the loop in `verify_files_exist`:
`verification[f] = exists` for each `f` in `l`, in order. -/
def verifDict (fs : FS) (l : List String) : List (String × Bool) :=
  l.foldl (fun d f => dictInsert d f (PathUtils.file_exists fs f)) []

/-- `TaskState.verify_files_exist` (task_state.py lines 39-53): for each
expected file record existence in the dict and append existing files to
`files_verified`. -/
def TaskState.verify_files_exist (fs : FS) (t : TaskState) : TaskState × List (String × Bool) :=
  ({ t with files_verified :=
      t.files_verified ++ t.files_expected.filter (PathUtils.file_exists fs) },
   verifDict fs t.files_expected)

/-- `TaskState.verify_completion` (task_state.py lines 62-80). -/
def TaskState.verify_completion (fs : FS) (t : TaskState) : TaskState × Bool :=
  if t.files_expected = [] then
    (t, decide (t.status = TaskStatus.done))
  else
    let r := t.verify_files_exist fs
    if r.2.all (fun p => p.2) then (r.1, true)
    else
      let missing := (r.2.filter (fun p => !p.2)).map Prod.fst
      ({ r.1 with error := some ("Missing files: " ++ String.intercalate ", " missing) }, false)

/-- `TaskState.can_retry` (task_state.py lines 82-84). -/
def TaskState.can_retry (t : TaskState) : Bool :=
  decide (t.status = TaskStatus.failed) && decide (t.retry_count < t.max_retries)

/-- `TaskPlan` (task_state.py lines 104-110). -/
structure TaskPlan where
  tasks : List TaskState
  user_request : String
  created_at : Nat
  project_dir : String := "."
deriving DecidableEq

/-- The scan of `TaskPlan.get_next_task` (task_state.py lines 112-120) as a
zipper: returns the tasks scanned past, the selected task (with `retry_count`
already incremented when it was selected as a failed retry), and the rest. -/
def selectNext : List TaskState → Option (List TaskState × TaskState × List TaskState)
  | [] => none
  | t :: rest =>
    if t.status = TaskStatus.pending then some ([], t, rest)
    else if t.status = TaskStatus.failed ∧ t.can_retry then
      some ([], { t with retry_count := t.retry_count + 1 }, rest)
    else
      match selectNext rest with
      | none => none
      | some (pre, c, post) => some (t :: pre, c, post)

/-- `TaskPlan.get_next_task` (task_state.py lines 112-120): the returned task
is aliased into the plan, so selection updates the plan in place. -/
def TaskPlan.get_next_task (p : TaskPlan) : Option TaskState × TaskPlan :=
  match selectNext p.tasks with
  | none => (none, p)
  | some (pre, c, post) => (some c, { p with tasks := pre ++ c :: post })

/-- The generator consumed by `all(...)` in `TaskPlan.is_complete`
(task_state.py lines 122-127): short-circuits at the first task that is not
`DONE` or fails `verify_completion`, mutating only the tasks inspected. -/
def isCompleteAux (fs : FS) : List TaskState → List TaskState × Bool
  | [] => ([], true)
  | t :: rest =>
    if t.status = TaskStatus.done then
      let r := t.verify_completion fs
      if r.2 then
        let rr := isCompleteAux fs rest
        (r.1 :: rr.1, rr.2)
      else (r.1 :: rest, false)
    else (t :: rest, false)

/-- `TaskPlan.is_complete` (task_state.py lines 122-127). -/
def TaskPlan.is_complete (fs : FS) (p : TaskPlan) : TaskPlan × Bool :=
  let r := isCompleteAux fs p.tasks
  ({ p with tasks := r.1 }, r.2)

/-- `TaskPlan.get_files_created` (task_state.py lines 147-152). -/
def TaskPlan.get_files_created (p : TaskPlan) : List String :=
  p.tasks.foldl (fun acc t => acc ++ t.files_verified) []

/-- The loop of `TaskPlan.verify_all_tasks` (task_state.py lines 154-169)
with explicit accumulators for the rebuilt task list and the id-keyed dict. -/
def verifyAllAux (fs : FS) (accT : List TaskState) (accD : List (Int × Bool)) :
    List TaskState → List TaskState × List (Int × Bool)
  | [] => (accT, accD)
  | t :: rest =>
    if t.status = TaskStatus.done then
      let r := t.verify_completion fs
      let t2 := if r.2 then r.1 else { r.1 with status := TaskStatus.failed }
      verifyAllAux fs (accT ++ [t2]) (dictInsert accD t.id r.2) rest
    else verifyAllAux fs (accT ++ [t]) accD rest

/-- `TaskPlan.verify_all_tasks` (task_state.py lines 154-169). -/
def TaskPlan.verify_all_tasks (fs : FS) (p : TaskPlan) : TaskPlan × List (Int × Bool) :=
  let r := verifyAllAux fs [] [] p.tasks
  ({ p with tasks := r.1 }, r.2)

/-- `ActionType` (agent_core.py lines 37-42). -/
inductive ActionType
  | tool_use
  | complete
  | clarify
  | error
deriving DecidableEq

/-- `AgentAction` (agent_core.py lines 89-96); tool parameters are an opaque
keyword dict. -/
structure AgentAction where
  type : ActionType
  tool_name : Option String := none
  parameters : Option (List (String × String)) := none
  message : Option String := none
  reasoning : Option String := none
deriving DecidableEq

/-- Python truthiness of an optional string: `None` and `""` are falsy. -/
def truthyStr : Option String → Bool
  | none => false
  | some s => decide (s ≠ "")

/-- Python truthiness of an optional dict: `None` and `{}` are falsy. -/
def truthyParams : Option (List (String × String)) → Bool
  | none => false
  | some l => decide (l ≠ [])

/-- String interpolation of an optional string: `None` prints as "None". -/
def fmtOptStr : Option String → String
  | none => "None"
  | some s => s

/-- The keys of `ToolResult.data` inspected by `update_task_state`
(agent_core.py lines 500-505); other payload is opaque to the core. -/
structure ToolData where
  files_created : Option (List String) := none
  component_file : Option String := none
  page_path : Option String := none
deriving DecidableEq

/-- `ToolResult` (tool_schemas.py lines 41-47). -/
structure ToolResult where
  success : Bool
  data : Option ToolData := none
  error : Option String := none
  metadata : List (String × String) := []
  execution_time_ms : Option Nat := none
deriving DecidableEq

/-- Extraction of claimed files from `result.data` (agent_core.py lines
499-505): `files_created`, else `component_file`, else `page_path`. -/
def filesClaimed (r : ToolResult) : List String :=
  match r.data with
  | none => []
  | some d =>
    match d.files_created with
    | some l => l
    | none =>
      match d.component_file with
      | some f => [f]
      | none =>
        match d.page_path with
        | some f => [f]
        | none => []

/-- `AgentContext` (agent_core.py lines 45-86).  The conversation history is
consumed only by the external Decider and is not modelled; `task_plan` and
`current_task` alias the plan threaded through the loop state below. -/
structure AgentContext where
  user_request : String
  tool_results : List ToolResult := []
  errors : List String := []
  consecutive_errors : Nat := 0
  max_consecutive_errors : Nat := 4
  iteration : Nat := 0
  max_iterations : Nat := 10
deriving DecidableEq

/-- `AgentContext.add_error` (agent_core.py lines 71-76). -/
def AgentContext.add_error (c : AgentContext) (e : String) : AgentContext :=
  { c with errors := c.errors ++ [e], consecutive_errors := c.consecutive_errors + 1 }

/-- `AgentContext.reset_error_counter` (agent_core.py lines 78-82). -/
def AgentContext.reset_error_counter (c : AgentContext) : AgentContext :=
  { c with consecutive_errors := 0 }

/-- `AgentContext.should_stop_due_to_errors` (agent_core.py lines 84-86). -/
def AgentContext.should_stop_due_to_errors (c : AgentContext) : Bool :=
  decide (c.max_consecutive_errors ≤ c.consecutive_errors)

/-- `AgentContext.add_tool_result` (agent_core.py lines 66-69); the appended
conversation message is not modelled. -/
def AgentContext.add_tool_result (c : AgentContext) (r : ToolResult) : AgentContext :=
  { c with tool_results := c.tool_results ++ [r] }

/-- `AICodeAgent.update_task_state` (agent_core.py lines 475-564). -/
def update_task_state (fs : FS) (t : TaskState) (a : AgentAction) (r : ToolResult)
    (iteration : Nat) : TaskState :=
  let t0 : TaskState := { t with tool_used := a.tool_name }
  if !r.success then
    { t0 with status := TaskStatus.failed, error := r.error }
  else
    let claimed := filesClaimed r
    let t1 : TaskState := { t0 with files_created := claimed }
    let v : TaskState × List (String × Bool) := t1.verify_files_exist fs
    let verified_count : Nat := (v.2.filter (fun p => p.2)).length
    let total_expected : Nat := t1.files_expected.length
    if t1.files_expected ≠ [] then
      if verified_count = total_expected then
        { v.1 with status := TaskStatus.done, iteration_completed := some iteration }
      else if 0 < verified_count then
        { v.1 with
          status := TaskStatus.failed,
          error := some ("Only " ++ toString verified_count ++ "/" ++
            toString total_expected ++ " files verified") }
      else
        { v.1 with
          status := TaskStatus.failed,
          error := some "No expected files found on filesystem" }
    else
      if claimed ≠ [] then
        let cd := verifDict fs claimed
        let verified_claimed := (cd.filter (fun p => p.2)).length
        if verified_claimed = claimed.length then
          { v.1 with
            status := TaskStatus.done, files_verified := claimed,
            iteration_completed := some iteration }
        else
          { v.1 with
            status := TaskStatus.failed,
            error := some ("Tool claimed files but only " ++ toString verified_claimed ++
              "/" ++ toString claimed.length ++ " verified") }
      else
        { v.1 with status := TaskStatus.done, iteration_completed := some iteration }

/-- Outcome of invoking a registered tool function: a returned `ToolResult`
or a raised exception with its message. -/
inductive ToolOutcome
  | ok (r : ToolResult)
  | exn (msg : String)
deriving DecidableEq

/-- A tool registry entry (agent_core.py lines 163-191): the input schema
(validation returns the validated parameters or raises) and the tool
function (returns a result or raises). -/
structure RegisteredTool where
  validate : List (String × String) → Except String (List (String × String))
  run : List (String × String) → ToolOutcome

/-- The tool registry: a map from tool name to registered tool. -/
def Registry : Type := String → Option RegisteredTool

/-- `AICodeAgent.execute_tool` (agent_core.py lines 906-967); `measured_ms`
is the wall-clock duration measured around the tool call. -/
def execute_tool (reg : Registry) (measured_ms : Nat) (tool_name : String)
    (parameters : List (String × String)) : ToolResult :=
  match reg tool_name with
  | none =>
    { success := false, error := some ("Tool not found: " ++ tool_name),
      metadata := [("tool_name", tool_name)] }
  | some ti =>
    match ti.validate parameters with
    | Except.error e =>
      { success := false, error := some ("Tool execution failed: " ++ e),
        metadata := [("tool_name", tool_name), ("exception", e)] }
    | Except.ok validated =>
      match ti.run validated with
      | ToolOutcome.exn e =>
        { success := false, error := some ("Tool execution failed: " ++ e),
          metadata := [("tool_name", tool_name), ("exception", e)] }
      | ToolOutcome.ok r =>
        let r1 := { r with metadata := dictInsert r.metadata "tool_name" tool_name }
        if r1.execution_time_ms = none then { r1 with execution_time_ms := some measured_ms }
        else r1

/-- What the planning call produced, as seen by `plan_tasks`: an API error
raised by the client, content rejected by `json.loads`, or a successfully
parsed task list of (name, description, files_expected) triples. -/
inductive PlanOutcome
  | apiError (msg : String)
  | badJson
  | parsed (tasks : List (String × String × List String))
deriving DecidableEq

/-- `AICodeAgent.plan_tasks` (agent_core.py lines 194-324) restricted to its
three exits: the API-error fallback (lines 263-277), the parse-failure
fallback (lines 307-324), and the parsed plan (lines 282-305). -/
def plan_tasks (user_request : String) (out : PlanOutcome) (now : Nat) : TaskPlan :=
  match out with
  | PlanOutcome.apiError e =>
    { tasks := [{ id := 1, name := "Handle API Error",
                  description := "API error occurred: " ++ e,
                  status := TaskStatus.failed, files_expected := [] }],
      user_request := user_request, created_at := now, project_dir := "." }
  | PlanOutcome.badJson =>
    { tasks := [{ id := 1, name := "Complete user request",
                  description := user_request,
                  status := TaskStatus.pending, files_expected := [] }],
      user_request := user_request, created_at := now }
  | PlanOutcome.parsed ts =>
    { tasks := ts.enum.map (fun p =>
        { id := (p.1 : Int) + 1, name := p.2.1, description := p.2.2.1,
          status := TaskStatus.pending, files_expected := p.2.2.2 }),
      user_request := user_request, created_at := now, project_dir := "." }

/-- The state threaded through the task execution loop. -/
structure LoopState where
  ctx : AgentContext
  plan : TaskPlan
deriving DecidableEq

/-- The external inputs consumed by one loop iteration: the Decider's action,
the tool result (consumed only when a tool is dispatched), and the
filesystem as seen by this iteration's verification checks. -/
structure StepInput where
  action : AgentAction
  toolResult : ToolResult
  fs : FS

/-- How one loop iteration ends: fall through to the next iteration, `break`
out of the loop (circuit breaker), exit because no task was selected, or
exit because the plan is complete. -/
inductive StepOutcome
  | proceed
  | halted
  | exhausted
  | completed
deriving DecidableEq

/-- An ASCII apostrophe, written via its character code. -/
def squote : String := String.singleton (Char.ofNat 39)

/-- The circuit breaker messages of agent_core.py lines 1080, 1103, 1139
and 1157. -/
def stoppedMsg (n : Nat) (kind : String) : String :=
  "Stopped after " ++ toString n ++ " consecutive " ++ kind

/-- The tail of every non-`continue`, non-`break` iteration (agent_core.py
lines 1161-1169): log progress, then `break` when `is_complete()`. -/
def finishIter (fs : FS) (ctx : AgentContext) (p : TaskPlan) (ts : List TaskState) :
    LoopState × StepOutcome :=
  let r := TaskPlan.is_complete fs { p with tasks := ts }
  (⟨ctx, r.1⟩, if r.2 then StepOutcome.completed else StepOutcome.proceed)

/-- The `ActionType.COMPLETE` branch (agent_core.py lines 1055-1082); ends
with `continue`, so the completion check of lines 1167-1169 is skipped. -/
def completeBranch (fs : FS) (ctx : AgentContext) (p : TaskPlan)
    (pre : List TaskState) (cur : TaskState) (post : List TaskState) :
    LoopState × StepOutcome :=
  let r := cur.verify_completion fs
  if r.2 then
    let cur2 := { r.1 with status := TaskStatus.done, iteration_completed := some ctx.iteration }
    (⟨ctx.reset_error_counter, { p with tasks := pre ++ cur2 :: post }⟩, StepOutcome.proceed)
  else
    let cur2 := { r.1 with status := TaskStatus.failed }
    let ctx2 := ctx.add_error
      ("Task " ++ squote ++ cur.name ++ squote ++ " claims complete but verification failed")
    if ctx2.should_stop_due_to_errors then
      let cur3 := { cur2 with
        error := some (stoppedMsg ctx2.consecutive_errors "validation failures") }
      (⟨ctx2, { p with tasks := pre ++ cur3 :: post }⟩, StepOutcome.halted)
    else
      (⟨ctx2, { p with tasks := pre ++ cur2 :: post }⟩, StepOutcome.proceed)

/-- The `ActionType.ERROR` branch (agent_core.py lines 1085-1107); ends with
`continue` unless the circuit breaker trips. -/
def errorBranch (ctx : AgentContext) (p : TaskPlan)
    (pre : List TaskState) (cur : TaskState) (post : List TaskState)
    (message : Option String) : LoopState × StepOutcome :=
  let error_msg := if truthyStr message then fmtOptStr message else "Unknown error"
  let ctx2 := ctx.add_error error_msg
  let cur2 := { cur with error := some ("Action error: " ++ error_msg) }
  if ctx2.should_stop_due_to_errors then
    let cur3 := { cur2 with
                  status := TaskStatus.failed,
                  error := some (stoppedMsg ctx2.consecutive_errors "errors") }
    (⟨ctx2, { p with tasks := pre ++ cur3 :: post }⟩, StepOutcome.halted)
  else
    (⟨ctx2, { p with tasks := pre ++ cur2 :: post }⟩, StepOutcome.proceed)

/-- The fall-through path for `TOOL_USE` and `CLARIFY` actions (agent_core.py
lines 1110-1169): dispatch the tool only when both `tool_name` and
`parameters` are truthy, then update task state, accumulate the result,
classify the outcome, and finally run the completion check. -/
def toolBranch (inp : StepInput) (ctx : AgentContext) (p : TaskPlan)
    (pre : List TaskState) (cur : TaskState) (post : List TaskState) :
    LoopState × StepOutcome :=
  if truthyStr inp.action.tool_name && truthyParams inp.action.parameters then
    let result := inp.toolResult
    let cur1 := update_task_state inp.fs cur inp.action result ctx.iteration
    let ctx1 := ctx.add_tool_result result
    if result.success && decide (cur1.status = TaskStatus.done) then
      finishIter inp.fs ctx1.reset_error_counter p (pre ++ cur1 :: post)
    else if !result.success then
      let ctx2 := ctx1.add_error
        ("Tool " ++ fmtOptStr inp.action.tool_name ++ " failed: " ++ fmtOptStr result.error)
      if ctx2.should_stop_due_to_errors then
        let cur2 := { cur1 with
                      status := TaskStatus.failed,
                      error := some (stoppedMsg ctx2.consecutive_errors "errors") }
        (⟨ctx2, { p with tasks := pre ++ cur2 :: post }⟩, StepOutcome.halted)
      else finishIter inp.fs ctx2 p (pre ++ cur1 :: post)
    else if decide (cur1.status = TaskStatus.failed) then
      let error_msg := if truthyStr cur1.error then fmtOptStr cur1.error
                       else "File verification failed"
      let ctx2 := ctx1.add_error
        ("Verification failed for " ++ fmtOptStr inp.action.tool_name ++ ": " ++ error_msg)
      if ctx2.should_stop_due_to_errors then
        let cur2 := { cur1 with
          error := some (stoppedMsg ctx2.consecutive_errors "verification failures") }
        (⟨ctx2, { p with tasks := pre ++ cur2 :: post }⟩, StepOutcome.halted)
      else finishIter inp.fs ctx2 p (pre ++ cur1 :: post)
    else
      finishIter inp.fs ctx1 p (pre ++ cur1 :: post)
  else
    finishIter inp.fs ctx p (pre ++ cur :: post)

/-- One iteration of the task execution loop of `AICodeAgent.execute`
(agent_core.py lines 1024-1169), from the top of the `while` body: bump the
iteration counter, select the next task, mark it in progress, and dispatch
on the action type. -/
def execStep (inp : StepInput) (s : LoopState) : LoopState × StepOutcome :=
  let ctx := { s.ctx with iteration := s.ctx.iteration + 1 }
  match selectNext s.plan.tasks with
  | none => (⟨ctx, s.plan⟩, StepOutcome.exhausted)
  | some (pre, c, post) =>
    let cur := { c with
                 status := TaskStatus.in_progress,
                 iteration_started := some ctx.iteration }
    match inp.action.type with
    | ActionType.complete => completeBranch inp.fs ctx s.plan pre cur post
    | ActionType.error => errorBranch ctx s.plan pre cur post inp.action.message
    | _ => toolBranch inp ctx s.plan pre cur post

/-- The `while context.iteration < max_iterations` driver (agent_core.py
lines 1024-1169) with explicit fuel: with fuel at least
`max_iterations - iteration` this is exactly the Python loop, and any
non-`proceed` iteration outcome exits the loop. -/
def runAux (inputs : Nat → StepInput) : Nat → LoopState → LoopState
  | 0, s => s
  | fuel + 1, s =>
    if s.ctx.iteration < s.ctx.max_iterations then
      match execStep (inputs s.ctx.iteration) s with
      | (s2, StepOutcome.proceed) => runAux inputs fuel s2
      | (s2, _) => s2
    else s

/-- The run report dictionary returned by `AICodeAgent.execute`
(agent_core.py lines 1209-1216 and 1220-1224).  An `Option` field is `none`
exactly when the corresponding key is absent from the returned dict; the
serialized plan is kept as the plan value itself. -/
structure RunReport where
  success : Bool
  response : Option String := none
  task_plan : Option TaskPlan := none
  iterations : Nat
  files_created : Option (List String) := none
  actions_taken : Option (List (Option String)) := none
  error : Option String := none
  errors : Option (List String) := none
deriving DecidableEq

/-- The post-loop tail of `AICodeAgent.execute` (agent_core.py lines
1171-1216): final `verify_all_tasks`, files-created summary, the response
message (calling `is_complete`, which re-verifies and mutates), and the
report dict (whose `success` entry calls `is_complete` once more). -/
def finishRun (fs : FS) (s : LoopState) : RunReport :=
  let v := s.plan.verify_all_tasks fs
  let files_created := v.1.get_files_created
  let c1 := v.1.is_complete fs
  let response_msg :=
    if c1.2 then
      "Successfully completed all " ++ toString v.1.tasks.length ++
        " tasks. Created " ++ toString files_created.length ++ " files."
    else
      let completed := (c1.1.tasks.filter (fun t => decide (t.status = TaskStatus.done))).length
      "Completed " ++ toString completed ++ "/" ++ toString c1.1.tasks.length ++ " tasks."
  let c2 := c1.1.is_complete fs
  { success := c2.2, response := some response_msg, task_plan := some c2.1,
    iterations := s.ctx.iteration, files_created := some files_created,
    actions_taken := some (s.ctx.tool_results.map (fun r => dictGet r.metadata "tool_name")),
    error := none, errors := none }

/-- The handler of agent_core.py lines 1218-1224: any exception raised in the
body is caught and reported as a dict with only `success`, `error` and
`iterations`. -/
def exceptionReport (msg : String) (iterations : Nat) : RunReport :=
  { success := false, iterations := iterations, error := some msg }

/-- The body of `AICodeAgent.execute` as observed by the caller: either the
try block runs to completion (reaching the report construction with some
final loop state and filesystem), or an exception is raised somewhere in the
body and caught by the handler. -/
inductive RunBody
  | normal (fs : FS) (s : LoopState)
  | raised (msg : String) (iterationAtFailure : Nat)

/-- `AICodeAgent.execute` (agent_core.py lines 998-1224) at the level of the
returned report. -/
def executeReport : RunBody → RunReport
  | RunBody.normal fs s => finishRun fs s
  | RunBody.raised msg it => exceptionReport msg it

/-! ### Derived predicates and iteration combinators used in the statements -/

/-- A task is selectable by `get_next_task`: `Pending`, or `Failed` and
retryable. -/
def actionable (t : TaskState) : Prop :=
  t.status = TaskStatus.pending ∨ (t.status = TaskStatus.failed ∧ t.can_retry = true)

instance (t : TaskState) : Decidable (actionable t) := by
  unfold actionable
  infer_instance

/-- A loop iteration that takes one of the failure paths, witnessed by the
consecutive-error counter being incremented. -/
def failingStep (inp : StepInput) (s : LoopState) : Prop :=
  (execStep inp s).1.ctx.consecutive_errors = s.ctx.consecutive_errors + 1

/-- The states of the unguarded iteration sequence from `s` (ignoring loop
exits), used to phrase hypotheses about the first few iterations. -/
def pureTrace (inputs : Nat → StepInput) (s : LoopState) : Nat → LoopState
  | 0 => s
  | i + 1 =>
    let t := pureTrace inputs s i
    (execStep (inputs t.ctx.iteration) t).1

/-- Iterating loop steps over a list of per-iteration inputs, ignoring loop
exits (used to state invariants that hold however the run continues). -/
def foldSteps (s : LoopState) : List StepInput → LoopState
  | [] => s
  | inp :: rest => foldSteps (execStep inp s).1 rest

/-- The task-list component of `verify_all_tasks` in direct recursion. -/
def vaTasks (fs : FS) : List TaskState → List TaskState
  | [] => []
  | t :: rest =>
    if t.status = TaskStatus.done then
      (let r := t.verify_completion fs
       if r.2 then r.1 else { r.1 with status := TaskStatus.failed }) :: vaTasks fs rest
    else t :: vaTasks fs rest

/-- The dict component of `verify_all_tasks` in direct recursion, valid when
task ids are distinct. -/
def vaDict (fs : FS) : List TaskState → List (Int × Bool)
  | [] => []
  | t :: rest =>
    if t.status = TaskStatus.done then (t.id, (t.verify_completion fs).2) :: vaDict fs rest
    else vaDict fs rest

/-- The context at the top of a loop iteration: the counter bumped
(agent_core.py line 1025). -/
def bumpCtx (ctx : AgentContext) : AgentContext := { ctx with iteration := ctx.iteration + 1 }

/-- The selected task marked in progress (agent_core.py lines 1048-1050). -/
def markInProgress (t : TaskState) (it : Nat) : TaskState :=
  { t with status := TaskStatus.in_progress, iteration_started := some it }

/-- The error recorded when a task claims completion but fails verification
(agent_core.py line 1066). -/
@[reducible]
def claimsCompleteMsg (nm : String) : String :=
  "Task " ++ squote ++ nm ++ squote ++ " claims complete but verification failed"

/-- The error recorded when a dispatched tool fails (agent_core.py
line 1125). -/
@[reducible]
def toolFailedMsg (toolName : Option String) (err : Option String) : String :=
  "Tool " ++ fmtOptStr toolName ++ " failed: " ++ fmtOptStr err

/-- The error recorded when a tool succeeds but verification fails
(agent_core.py lines 1144-1145). -/
@[reducible]
def verifFailedMsg (toolName : Option String) (taskErr : Option String) : String :=
  "Verification failed for " ++ fmtOptStr toolName ++ ": " ++
    (if truthyStr taskErr then fmtOptStr taskErr else "File verification failed")

/-- The message recorded for an `Error` action (agent_core.py line 1086). -/
@[reducible]
def errActionMsg (m : Option String) : String :=
  if truthyStr m then fmtOptStr m else "Unknown error"

instance (inp : StepInput) (s : LoopState) : Decidable (failingStep inp s) := by
  unfold failingStep
  infer_instance

/-! ### Concrete instances used by witnesses and counterexamples -/

/-- An empty filesystem. -/
def fsEmpty : FS := fun _ => none

/-- A filesystem holding exactly one non-empty regular file `out/a.txt`. -/
def fsA : FS := fun p => if p = "out/a.txt" then some ⟨true, 5⟩ else none

/-- A filesystem where `out/a.txt` exists but is a zero-byte file. -/
def fsZero : FS := fun p => if p = "out/a.txt" then some ⟨true, 0⟩ else none

/-- A task expecting `out/a.txt`, in progress. -/
def taskExpA : TaskState :=
  { id := 1, name := "Create a", description := "write a",
    status := TaskStatus.in_progress, files_expected := ["out/a.txt"] }

/-- A successful tool result claiming to have created `out/a.txt`. -/
def resOkA : ToolResult :=
  { success := true, data := some { files_created := some ["out/a.txt"] } }

/-- A failing tool result. -/
def resFail : ToolResult := { success := false, error := some "boom" }

/-- A well-formed tool-use action. -/
def actTool : AgentAction :=
  { type := ActionType.tool_use, tool_name := some "write_file",
    parameters := some [("file_path", "out/a.txt")] }

/-- A tool that validates as-is and returns a fixed successful result. -/
def okTool : RegisteredTool :=
  { validate := fun ps => Except.ok ps,
    run := fun _ => ToolOutcome.ok { success := true } }

/-- A tool whose schema validation rejects every input. -/
def badValTool : RegisteredTool :=
  { validate := fun _ => Except.error "validation error",
    run := fun _ => ToolOutcome.ok { success := true } }

/-- A tool whose function raises. -/
def raiseTool : RegisteredTool :=
  { validate := fun ps => Except.ok ps,
    run := fun _ => ToolOutcome.exn "kaboom" }

/-- A registry holding the three example tools. -/
def regEx : Registry := fun nm =>
  if nm = "ok_tool" then some okTool
  else if nm = "bad_val_tool" then some badValTool
  else if nm = "raise_tool" then some raiseTool
  else none

/-- A run state whose single task failed; the context has recorded errors. -/
def sFailed : LoopState :=
  { ctx := { user_request := "r", errors := ["Tool write_file failed: boom"],
             consecutive_errors := 1, iteration := 1 },
    plan := { tasks := [{ id := 1, name := "a", description := "d",
                          status := TaskStatus.failed, error := some "boom" }],
              user_request := "r", created_at := 0 } }

/-- A plan with one `done` task expecting the file that `fsA` holds. -/
def planDoneA : TaskPlan :=
  { tasks := [{ id := 1, name := "a", description := "d", status := TaskStatus.done,
                files_expected := ["out/a.txt"] }],
    user_request := "r", created_at := 0 }

/-- A loop state with a single pending task expecting a file. -/
def sPend : LoopState :=
  { ctx := { user_request := "r" },
    plan := { tasks := [{ id := 1, name := "a", description := "d",
                          status := TaskStatus.pending, files_expected := ["x"] }],
              user_request := "r", created_at := 0 } }

/-- An always-failing tool-use input. -/
def inpFail : StepInput := { action := actTool, toolResult := resFail, fs := fsEmpty }

/-- An `Error` action input. -/
def inpErrB : StepInput :=
  { action := { type := ActionType.error, message := some "boom" },
    toolResult := resOkA, fs := fsEmpty }

/-- A `Clarify` action input carrying no tool request. -/
def inpClarifyN : StepInput :=
  { action := { type := ActionType.clarify, message := some "which framework?" },
    toolResult := resOkA, fs := fsA }

/-- A loop state with a verified `done` task followed by a pending task. -/
def sDonePend : LoopState :=
  { ctx := { user_request := "r" },
    plan := {
      tasks := [
        { id := 1, name := "a", description := "d", status := TaskStatus.done,
          files_expected := ["out/a.txt"], files_verified := ["out/a.txt"] },
        { id := 2, name := "b", description := "d", status := TaskStatus.pending }],
      user_request := "r", created_at := 0 } }

/-- Scenario plan: task 1 done, task 2 failed and retryable. -/
def planRetry : TaskPlan :=
  { tasks := [
      { id := 1, name := "a", description := "d", status := TaskStatus.done },
      { id := 2, name := "b", description := "d", status := TaskStatus.failed,
        retry_count := 0, max_retries := 3 }],
    user_request := "r", created_at := 0 }

/-- A plan whose second task is failed with retries exhausted. -/
def planExhausted : TaskPlan :=
  { tasks := [
      { id := 1, name := "a", description := "d", status := TaskStatus.in_progress },
      { id := 2, name := "b", description := "d", status := TaskStatus.failed,
        retry_count := 3, max_retries := 3 }],
    user_request := "r", created_at := 0 }

/-- The task that `get_next_task` selects from `planRetry`: the failed task
with its retry count bumped. -/
def selRetry : TaskState :=
  { id := 2, name := "b", description := "d", status := TaskStatus.failed,
    retry_count := 1, max_retries := 3 }

/-- The second task of `planRetry` before selection. -/
def taskFB : TaskState :=
  { id := 2, name := "b", description := "d", status := TaskStatus.failed,
    retry_count := 0, max_retries := 3 }

/-- The pending task of `sPend`. -/
def taskPendA : TaskState :=
  { id := 1, name := "a", description := "d", status := TaskStatus.pending,
    files_expected := ["x"] }

/-- The done task of `sDonePend`. -/
def taskDoneA : TaskState :=
  { id := 1, name := "a", description := "d", status := TaskStatus.done,
    files_expected := ["out/a.txt"], files_verified := ["out/a.txt"] }

/-- The pending task of `sDonePend`. -/
def taskPendB : TaskState :=
  { id := 2, name := "b", description := "d", status := TaskStatus.pending }

/-! ### Association-list dict lemmas -/

theorem dictInsert_length_le {α β : Type} [DecidableEq α] (d : List (α × β)) (k : α) (v : β) :
    (dictInsert d k v).length ≤ d.length + 1 := by
  induction d with
  | nil => simp [dictInsert]
  | cons p rest ih =>
    by_cases h : p.1 = k
    · simp [dictInsert, h]
    · simpa [dictInsert, h] using Nat.succ_le_succ ih

theorem dictGet_dictInsert_self {α β : Type} [DecidableEq α] (d : List (α × β)) (k : α) (v : β) :
    dictGet (dictInsert d k v) k = some v := by
  induction d with
  | nil => simp [dictInsert, dictGet]
  | cons p rest ih =>
    by_cases h : p.1 = k
    · simp [dictInsert, h, dictGet]
    · simp [dictInsert, h, dictGet, ih]

theorem dictGet_dictInsert_ne {α β : Type} [DecidableEq α] (d : List (α × β)) (k k' : α) (v : β)
    (h : k' ≠ k) : dictGet (dictInsert d k v) k' = dictGet d k' := by
  induction d with
  | nil =>
    simp only [dictInsert, dictGet]
    rw [if_neg (Ne.symm h)]
  | cons p rest ih =>
    by_cases hp : p.1 = k
    · simp only [dictInsert, if_pos hp, dictGet]
      rw [if_neg (Ne.symm h), if_neg (show ¬p.1 = k' by rw [hp]; exact Ne.symm h)]
    · simp only [dictInsert, if_neg hp, dictGet]
      by_cases hp' : p.1 = k'
      · rw [if_pos hp', if_pos hp']
      · rw [if_neg hp', if_neg hp', ih]

theorem dictGet_mem {α β : Type} [DecidableEq α] (d : List (α × β)) (k : α) (v : β)
    (h : dictGet d k = some v) : (k, v) ∈ d := by
  induction d with
  | nil => simp [dictGet] at h
  | cons p rest ih =>
    by_cases hp : p.1 = k
    · simp [dictGet, hp] at h
      exact List.mem_cons.mpr (Or.inl (by cases p; simp_all))
    · simp [dictGet, hp] at h
      exact List.mem_cons_of_mem _ (ih h)

theorem dictInsert_forall {α β : Type} [DecidableEq α] {P : α × β → Prop}
    (d : List (α × β)) (k : α) (v : β)
    (hd : ∀ e ∈ d, P e) (hkv : P (k, v)) : ∀ e ∈ dictInsert d k v, P e := by
  induction d with
  | nil => simpa [dictInsert] using hkv
  | cons p rest ih =>
    by_cases hp : p.1 = k
    · intro e he
      simp only [dictInsert, hp, if_pos rfl] at he
      rcases List.mem_cons.mp he with h | h
      · exact h ▸ hkv
      · exact hd e (List.mem_cons_of_mem _ h)
    · intro e he
      simp only [dictInsert, hp, if_neg hp] at he
      rcases List.mem_cons.mp he with h | h
      · exact h ▸ hd p (List.mem_cons_self _ _)
      · exact ih (fun e' he' => hd e' (List.mem_cons_of_mem _ he')) e h

theorem foldDict_get {α β : Type} [DecidableEq α] (g : α → β) (l : List α) :
    ∀ (d0 : List (α × β)) (x : α),
      dictGet (l.foldl (fun d f => dictInsert d f (g f)) d0) x =
        if x ∈ l then some (g x) else dictGet d0 x := by
  induction l with
  | nil => intro d0 x; simp
  | cons y ys ih =>
    intro d0 x
    simp only [List.foldl_cons]
    rw [ih]
    by_cases hx : x ∈ ys
    · simp [hx]
    · by_cases hxy : x = y
      · subst hxy
        simp [hx, dictGet_dictInsert_self]
      · simp [hx, hxy, dictGet_dictInsert_ne _ _ _ _ hxy]

theorem foldDict_length_le {α β : Type} [DecidableEq α] (g : α → β) (l : List α) :
    ∀ d0 : List (α × β),
      (l.foldl (fun d f => dictInsert d f (g f)) d0).length ≤ d0.length + l.length := by
  induction l with
  | nil => intro d0; simp
  | cons y ys ih =>
    intro d0
    simp only [List.foldl_cons, List.length_cons]
    calc (ys.foldl (fun d f => dictInsert d f (g f)) (dictInsert d0 y (g y))).length
        ≤ (dictInsert d0 y (g y)).length + ys.length := ih _
      _ ≤ d0.length + 1 + ys.length := by
          exact Nat.add_le_add_right (dictInsert_length_le _ _ _) _
      _ = d0.length + (ys.length + 1) := by omega

theorem verifDict_get (fs : FS) (l : List String) (x : String) (hx : x ∈ l) :
    dictGet (verifDict fs l) x = some (PathUtils.file_exists fs x) := by
  unfold verifDict
  rw [foldDict_get]
  simp [hx]

theorem verifDict_length_le (fs : FS) (l : List String) :
    (verifDict fs l).length ≤ l.length := by
  unfold verifDict
  simpa using foldDict_length_le (PathUtils.file_exists fs) l []

theorem verifDict_all_of_filter_len (fs : FS) (l : List String)
    (h : ((verifDict fs l).filter (fun p => p.2)).length = l.length) :
    ∀ p ∈ l, PathUtils.file_exists fs p = true := by
  have hle1 : ((verifDict fs l).filter (fun p => p.2)).length ≤ (verifDict fs l).length :=
    List.length_filter_le _ _
  have hle2 : (verifDict fs l).length ≤ l.length := verifDict_length_le fs l
  have hlen : ((verifDict fs l).filter (fun p => p.2)).length = (verifDict fs l).length := by
    omega
  have heq : (verifDict fs l).filter (fun p => p.2) = verifDict fs l :=
    (List.filter_sublist (verifDict fs l)).eq_of_length hlen
  intro p hp
  have hget := verifDict_get fs l p hp
  have hmem := dictGet_mem _ _ _ hget
  have := List.filter_eq_self.mp heq _ hmem
  simpa using this

/-- If the task's status after `update_task_state` is `done` and files were
expected, then the count of verified expected files equals their number. -/
theorem update_done_filter_len (fs : FS) (t : TaskState) (a : AgentAction) (r : ToolResult)
    (it : Nat) (hne : t.files_expected ≠ [])
    (hd : (update_task_state fs t a r it).status = TaskStatus.done) :
    ((verifDict fs t.files_expected).filter (fun p => p.2)).length = t.files_expected.length := by
  simp only [update_task_state, TaskState.verify_files_exist] at hd
  split_ifs at hd
  all_goals simp_all

/-- C1: for a task with non-empty `files_expected`, `update_task_state` sets
`done` only when every expected path exists on disk as a regular file of
size > 0; in particular, an expected path that exists as a zero-byte file
prevents `done`. -/
theorem update_task_state_done_requires_files (fs : FS) (t : TaskState) (a : AgentAction)
    (r : ToolResult) (it : Nat) (hne : t.files_expected ≠ []) :
    ((update_task_state fs t a r it).status = TaskStatus.done →
      ∀ p ∈ t.files_expected, PathUtils.file_exists fs p = true)
    ∧ (∀ p ∈ t.files_expected, ∀ e, fs p = some e → e.size = 0 →
        (update_task_state fs t a r it).status ≠ TaskStatus.done) := by
  constructor
  · intro hd p hp
    exact verifDict_all_of_filter_len fs _
      (update_done_filter_len fs t a r it hne hd) p hp
  · intro p hp e hfs hsz hd
    have hex := verifDict_all_of_filter_len fs _
      (update_done_filter_len fs t a r it hne hd) p hp
    rw [PathUtils.file_exists, hfs] at hex
    simp [hsz] at hex

/-- C1 witness: a concrete `done` transition whose expected file does exist
with positive size, obtained through the theorem. -/
theorem update_task_state_done_requires_files_witness :
    PathUtils.file_exists fsA "out/a.txt" = true :=
  (update_task_state_done_requires_files fsA taskExpA actTool resOkA 3
      (by decide)).1 (by decide) "out/a.txt" (by decide)

/-! ### C7: execute_tool -/

/-- C7: `execute_tool` is total over name and raw parameters and always
returns a `ToolResult`: an unregistered name yields a failure result with a
"Tool not found" error, a schema-validation failure or tool-internal
exception yields a failure result carrying the message, and an invocation
whose tool function returns a result gets `metadata.tool_name` stamped with
the invoked name and a present `execution_time_ms`. -/
theorem execute_tool_total_chars (reg : Registry) (ms : Nat) (nm : String)
    (ps : List (String × String)) :
    (reg nm = none →
      execute_tool reg ms nm ps =
        { success := false, error := some ("Tool not found: " ++ nm),
          metadata := [("tool_name", nm)] })
    ∧ (∀ ti e, reg nm = some ti → ti.validate ps = Except.error e →
        execute_tool reg ms nm ps =
          { success := false, error := some ("Tool execution failed: " ++ e),
            metadata := [("tool_name", nm), ("exception", e)] })
    ∧ (∀ ti vps e, reg nm = some ti → ti.validate ps = Except.ok vps →
        ti.run vps = ToolOutcome.exn e →
        execute_tool reg ms nm ps =
          { success := false, error := some ("Tool execution failed: " ++ e),
            metadata := [("tool_name", nm), ("exception", e)] })
    ∧ (∀ ti vps r, reg nm = some ti → ti.validate ps = Except.ok vps →
        ti.run vps = ToolOutcome.ok r →
        dictGet (execute_tool reg ms nm ps).metadata "tool_name" = some nm
        ∧ (execute_tool reg ms nm ps).execution_time_ms.isSome = true
        ∧ (execute_tool reg ms nm ps).success = r.success) := by
  refine ⟨?_, ?_, ?_, ?_⟩
  · intro h
    simp [execute_tool, h]
  · intro ti e hti hv
    simp [execute_tool, hti, hv]
  · intro ti vps e hti hv hr
    simp [execute_tool, hti, hv, hr]
  · intro ti vps r hti hv hr
    simp only [execute_tool, hti, hv, hr]
    by_cases hms : r.execution_time_ms = none
    · simp [hms, dictGet_dictInsert_self]
    · simp [hms, dictGet_dictInsert_self, Option.isSome_iff_exists]
      exact Option.ne_none_iff_exists'.mp hms

/-- C7 witness: the four contract cases at concrete registry inputs. -/
theorem execute_tool_total_chars_witness :
    (execute_tool regEx 7 "missing_tool" [] =
      { success := false, error := some ("Tool not found: " ++ "missing_tool"),
        metadata := [("tool_name", "missing_tool")] })
    ∧ (execute_tool regEx 7 "bad_val_tool" [] =
      { success := false, error := some ("Tool execution failed: " ++ "validation error"),
        metadata := [("tool_name", "bad_val_tool"), ("exception", "validation error")] })
    ∧ (execute_tool regEx 7 "raise_tool" [] =
      { success := false, error := some ("Tool execution failed: " ++ "kaboom"),
        metadata := [("tool_name", "raise_tool"), ("exception", "kaboom")] })
    ∧ (dictGet (execute_tool regEx 7 "ok_tool" []).metadata "tool_name" = some "ok_tool"
        ∧ (execute_tool regEx 7 "ok_tool" []).execution_time_ms.isSome = true
        ∧ (execute_tool regEx 7 "ok_tool" []).success = true) :=
  ⟨(execute_tool_total_chars regEx 7 "missing_tool" []).1 rfl,
   (execute_tool_total_chars regEx 7 "bad_val_tool" []).2.1 badValTool "validation error"
     rfl rfl,
   (execute_tool_total_chars regEx 7 "raise_tool" []).2.2.1 raiseTool [] "kaboom"
     rfl rfl rfl,
   (execute_tool_total_chars regEx 7 "ok_tool" []).2.2.2 okTool [] { success := true }
     rfl rfl rfl⟩

/-! ### C9: plan_tasks fallbacks -/

/-- C9 counterexample: on an API-error planning failure, the single fallback
task does not wrap the raw user request: its description is the API error
text (not the request) and its status is `Failed`. -/
theorem plan_tasks_api_error_not_request :
    ((plan_tasks "make a page" (PlanOutcome.apiError "boom") 0).tasks.map
        (fun t => t.description) = ["API error occurred: boom"])
    ∧ ((plan_tasks "make a page" (PlanOutcome.apiError "boom") 0).tasks.map
        (fun t => t.description) ≠ ["make a page"])
    ∧ ((plan_tasks "make a page" (PlanOutcome.apiError "boom") 0).tasks.map
        (fun t => t.status) = [TaskStatus.failed]) :=
  ⟨by decide, by decide, by decide⟩

/-- C9 amended: `plan_tasks` returns a plan (rather than raising) on both
planning failure modes, always with exactly one task: on unparseable JSON
the fallback task is `Pending` and its description is the raw user request;
on an API error the single task is `Failed` and describes the error, the raw
request being retained only in the plan's `user_request` field. -/
theorem plan_tasks_fallback_shape (req e : String) (now : Nat) :
    plan_tasks req PlanOutcome.badJson now =
      { tasks := [{ id := 1, name := "Complete user request", description := req,
                    status := TaskStatus.pending, files_expected := [] }],
        user_request := req, created_at := now }
    ∧ plan_tasks req (PlanOutcome.apiError e) now =
      { tasks := [{ id := 1, name := "Handle API Error",
                    description := "API error occurred: " ++ e,
                    status := TaskStatus.failed, files_expected := [] }],
        user_request := req, created_at := now }
    ∧ (plan_tasks req PlanOutcome.badJson now).tasks.length = 1
    ∧ (plan_tasks req (PlanOutcome.apiError e) now).tasks.length = 1 :=
  ⟨rfl, rfl, rfl, rfl⟩

/-! ### C6: the run report -/

/-- C6 counterexample: a failed run whose normal-path report has
`success = false` and yet carries no `errors` key at all, although the
context had recorded errors — the populated `errors` list required by the
claim is absent from the report. -/
theorem run_report_has_no_errors_list :
    (finishRun fsEmpty sFailed).success = false
    ∧ (finishRun fsEmpty sFailed).errors = none
    ∧ sFailed.ctx.errors ≠ [] :=
  ⟨by decide, by decide, by decide⟩

/-- C6 amended: `execute` always returns a report dict rather than raising:
on the normal path the report has `success`, `response`, `task_plan`,
`iterations`, `files_created` and `actions_taken` entries and no `error` or
`errors` key; when the body raises, the handler returns only
`success = false`, a single `error` string, and `iterations`; no path
produces an `errors` list. -/
theorem execute_report_shape :
    (∀ fs s, (executeReport (RunBody.normal fs s)).response.isSome = true
      ∧ (executeReport (RunBody.normal fs s)).task_plan.isSome = true
      ∧ (executeReport (RunBody.normal fs s)).files_created.isSome = true
      ∧ (executeReport (RunBody.normal fs s)).actions_taken.isSome = true
      ∧ (executeReport (RunBody.normal fs s)).iterations = s.ctx.iteration
      ∧ (executeReport (RunBody.normal fs s)).error = none
      ∧ (executeReport (RunBody.normal fs s)).errors = none)
    ∧ (∀ msg it, executeReport (RunBody.raised msg it) =
        { success := false, iterations := it, error := some msg })
    ∧ (∀ b, (executeReport b).errors = none) := by
  refine ⟨?_, ?_, ?_⟩
  · intro fs s
    refine ⟨?_, ?_, ?_, ?_, ?_, ?_, ?_⟩ <;> simp [executeReport, finishRun]
  · intro msg it
    rfl
  · intro b
    cases b with
    | normal fs s => simp [executeReport, finishRun]
    | raised msg it => rfl

/-! ### C8: re-verification -/

theorem dictInsert_fresh {α β : Type} [DecidableEq α] (d : List (α × β)) (k : α) (v : β)
    (h : ∀ e ∈ d, e.1 ≠ k) : dictInsert d k v = d ++ [(k, v)] := by
  induction d with
  | nil => rfl
  | cons p rest ih =>
    have hp : p.1 ≠ k := h p (List.mem_cons_self _ _)
    simp only [dictInsert, if_neg hp, List.cons_append]
    rw [ih (fun e he => h e (List.mem_cons_of_mem _ he))]

theorem verify_completion_fst_fields (fs : FS) (t : TaskState) :
    (t.verify_completion fs).1.id = t.id ∧ (t.verify_completion fs).1.status = t.status
    ∧ (t.verify_completion fs).1.files_expected = t.files_expected := by
  simp only [TaskState.verify_completion, TaskState.verify_files_exist]
  split_ifs <;> exact ⟨rfl, rfl, rfl⟩

theorem verify_completion_snd_congr (fs : FS) (t t' : TaskState)
    (hfe : t'.files_expected = t.files_expected) (hst : t'.status = t.status) :
    (t'.verify_completion fs).2 = (t.verify_completion fs).2 := by
  simp only [TaskState.verify_completion, TaskState.verify_files_exist, hfe, hst]
  split_ifs <;> rfl

theorem vaTasks_map_id (fs : FS) (ts : List TaskState) :
    (vaTasks fs ts).map TaskState.id = ts.map TaskState.id := by
  induction ts with
  | nil => rfl
  | cons t rest ih =>
    by_cases h : t.status = TaskStatus.done
    · by_cases hv : (t.verify_completion fs).2
      · simp [vaTasks, h, hv, ih, (verify_completion_fst_fields fs t).1]
      · simp [vaTasks, h, hv, ih, (verify_completion_fst_fields fs t).1]
    · simp [vaTasks, h, ih]

theorem verifyAllAux_eq (fs : FS) :
    ∀ (ts : List TaskState) (accT : List TaskState) (accD : List (Int × Bool)),
      (∀ t' ∈ ts, ∀ e ∈ accD, e.1 ≠ t'.id) →
      (ts.map TaskState.id).Nodup →
      verifyAllAux fs accT accD ts = (accT ++ vaTasks fs ts, accD ++ vaDict fs ts) := by
  intro ts
  induction ts with
  | nil =>
    intro accT accD _ _
    simp [verifyAllAux, vaTasks, vaDict]
  | cons t rest ih =>
    intro accT accD hfresh hnd
    rw [List.map_cons, List.nodup_cons] at hnd
    obtain ⟨htid, hndr⟩ := hnd
    by_cases h : t.status = TaskStatus.done
    · simp only [verifyAllAux, if_pos h]
      rw [dictInsert_fresh _ _ _ (fun e he => hfresh t (List.mem_cons_self _ _) e he)]
      rw [ih _ _ ?_ hndr]
      · simp [vaTasks, vaDict, h]
      · intro t' ht' e he
        rcases List.mem_append.mp he with h1 | h1
        · exact hfresh t' (List.mem_cons_of_mem _ ht') e h1
        · have he2 : e = (t.id, (t.verify_completion fs).2) := by simpa using h1
          rw [he2]
          intro hc
          have hc2 : t.id = t'.id := hc
          exact htid (by rw [hc2]; exact List.mem_map_of_mem TaskState.id ht')
    · simp only [verifyAllAux, if_neg h]
      rw [ih _ _ (fun t' ht' e he => hfresh t' (List.mem_cons_of_mem _ ht') e he) hndr]
      simp [vaTasks, vaDict, h]

theorem vaDict_vaTasks (fs : FS) (ts : List TaskState) :
    vaDict fs (vaTasks fs ts) = (vaDict fs ts).filter (fun e => e.2) := by
  induction ts with
  | nil => rfl
  | cons t rest ih =>
    by_cases h : t.status = TaskStatus.done
    · have hid := (verify_completion_fst_fields fs t).1
      have hst := (verify_completion_fst_fields fs t).2.1
      have hfe := (verify_completion_fst_fields fs t).2.2
      by_cases hv : (t.verify_completion fs).2
      · have hsnd : ((t.verify_completion fs).1.verify_completion fs).2 =
            (t.verify_completion fs).2 :=
          verify_completion_snd_congr fs t _ hfe hst
        have hdone2 : (t.verify_completion fs).1.status = TaskStatus.done := by
          rw [hst]; exact h
        simp only [vaTasks, if_pos h, if_pos hv]
        simp only [vaDict, if_pos h, if_pos hdone2]
        rw [hid, hsnd, ih]
        simp [hv]
      · have hv2 : (t.verify_completion fs).2 = false := by
          simpa using hv
        simp only [vaTasks, if_pos h, if_neg hv]
        simp only [vaDict, if_pos h]
        simp [hv2, ih]
    · simp [vaDict, vaTasks, h, ih]

/-- C8 counterexample: with no filesystem change between the two calls,
calling `verify_all_tasks` twice does not yield identical results: the
second call re-appends the verified file, so the resulting plans differ
(`files_verified` is `["out/a.txt"]` after one call and
`["out/a.txt", "out/a.txt"]` after two). -/
theorem verify_all_tasks_not_idempotent :
    ((planDoneA.verify_all_tasks fsA).1.verify_all_tasks fsA).1 ≠
      (planDoneA.verify_all_tasks fsA).1
    ∧ (((planDoneA.verify_all_tasks fsA).1.verify_all_tasks fsA).1.tasks.map
        (fun t => t.files_verified) = [["out/a.txt", "out/a.txt"]])
    ∧ ((planDoneA.verify_all_tasks fsA).1.tasks.map
        (fun t => t.files_verified) = [["out/a.txt"]]) :=
  ⟨by decide, by decide, by decide⟩

/-- C8 amended: with no filesystem change and distinct task ids, the map
returned by the second `verify_all_tasks` call is the first call's map
restricted to the entries that verified true (tasks demoted to `Failed` by
the first call are skipped), and every entry of the second map is true; the
resulting task states, however, are not preserved (see the counterexample:
`files_verified` grows on each call). -/
theorem verify_all_tasks_second_pass (fs : FS) (p : TaskPlan)
    (hnd : (p.tasks.map TaskState.id).Nodup) :
    ((p.verify_all_tasks fs).1.verify_all_tasks fs).2 =
      ((p.verify_all_tasks fs).2).filter (fun e => e.2)
    ∧ ∀ e ∈ ((p.verify_all_tasks fs).1.verify_all_tasks fs).2, e.2 = true := by
  have h1 : p.verify_all_tasks fs =
      ({ p with tasks := vaTasks fs p.tasks }, vaDict fs p.tasks) := by
    unfold TaskPlan.verify_all_tasks
    rw [verifyAllAux_eq fs p.tasks [] [] (by simp) hnd]
    simp
  have hnd2 : ((vaTasks fs p.tasks).map TaskState.id).Nodup := by
    rw [vaTasks_map_id]
    exact hnd
  have h2 : ((p.verify_all_tasks fs).1.verify_all_tasks fs).2 =
      vaDict fs (vaTasks fs p.tasks) := by
    rw [h1]
    unfold TaskPlan.verify_all_tasks
    rw [verifyAllAux_eq fs (vaTasks fs p.tasks) [] [] (by simp) hnd2]
    simp
  have hmain : ((p.verify_all_tasks fs).1.verify_all_tasks fs).2 =
      ((p.verify_all_tasks fs).2).filter (fun e => e.2) := by
    rw [h2, h1, vaDict_vaTasks]
  refine ⟨hmain, ?_⟩
  intro e he
  rw [hmain] at he
  exact (List.mem_filter.mp he).2

/-- C8 witness: the amended statement evaluated on the concrete one-task
plan whose expected file exists. -/
theorem verify_all_tasks_second_pass_witness :
    ((planDoneA.verify_all_tasks fsA).1.verify_all_tasks fsA).2 =
      ((planDoneA.verify_all_tasks fsA).2).filter (fun e => e.2) :=
  (verify_all_tasks_second_pass fsA planDoneA (by decide)).1

/-! ### List indexing and completion-check lemmas -/

theorem getElem?_middle {α : Type} (pre post : List α) (x : α) :
    (pre ++ x :: post)[pre.length]? = some x := by
  induction pre with
  | nil => simp
  | cons a l ih => simpa using ih

theorem getElem?_middle_ne {α : Type} (pre post : List α) (x y : α) (j : Nat)
    (hj : j ≠ pre.length) :
    (pre ++ x :: post)[j]? = (pre ++ y :: post)[j]? := by
  induction pre generalizing j with
  | nil =>
    cases j with
    | zero => exact absurd rfl hj
    | succ n => simp
  | cons a l ih =>
    cases j with
    | zero => simp
    | succ n =>
      simpa using ih n (fun hc => hj (by simp [hc]))

/-- Pointwise effect of the completion-check scan: every task is either left
unchanged, or (when it was `done`) replaced by its re-verified version. -/
theorem isCompleteAux_pointwise (fs : FS) (ts : List TaskState) :
    ∀ (j : Nat) (t : TaskState), ts[j]? = some t →
      (isCompleteAux fs ts).1[j]? = some t
      ∨ ((isCompleteAux fs ts).1[j]? = some (t.verify_completion fs).1
          ∧ t.status = TaskStatus.done) := by
  induction ts with
  | nil => intro j t ht; simp at ht
  | cons u rest ih =>
    intro j t ht
    by_cases h : u.status = TaskStatus.done
    · by_cases hv : (u.verify_completion fs).2
      · simp only [isCompleteAux, if_pos h, if_pos hv]
        cases j with
        | zero =>
          simp only [List.getElem?_cons_zero, Option.some.injEq] at ht
          right
          subst ht
          simp [h]
        | succ n =>
          simp only [List.getElem?_cons_succ] at ht ⊢
          exact ih n t ht
      · simp only [isCompleteAux, if_pos h, if_neg hv]
        cases j with
        | zero =>
          simp only [List.getElem?_cons_zero, Option.some.injEq] at ht
          right
          subst ht
          simp [h]
        | succ n =>
          simp only [List.getElem?_cons_succ] at ht ⊢
          left
          exact ht
    · simp only [isCompleteAux, if_neg h]
      cases j with
      | zero =>
        simp only [List.getElem?_cons_zero] at ht ⊢
        left
        exact ht
      | succ n =>
        simp only [List.getElem?_cons_succ] at ht ⊢
        left
        exact ht

/-- The completion-check is false whenever some task is not `done`. -/
theorem isCompleteAux_false_of_not_done (fs : FS) (ts : List TaskState)
    (h : ∃ t ∈ ts, ¬t.status = TaskStatus.done) :
    (isCompleteAux fs ts).2 = false := by
  induction ts with
  | nil => simp at h
  | cons u rest ih =>
    obtain ⟨t, ht, hnd⟩ := h
    by_cases h1 : u.status = TaskStatus.done
    · by_cases hv : (u.verify_completion fs).2
      · simp only [isCompleteAux, if_pos h1, if_pos hv]
        refine ih ⟨t, ?_, hnd⟩
        rcases List.mem_cons.mp ht with rfl | hr
        · exact absurd h1 hnd
        · exact hr
      · simp [isCompleteAux, if_pos h1, if_neg hv]
    · simp [isCompleteAux, if_neg h1]

/-- `verify_completion` changes only `files_verified` and `error`. -/
theorem verify_completion_core (fs : FS) (t : TaskState) :
    (t.verify_completion fs).1.id = t.id ∧ (t.verify_completion fs).1.name = t.name
    ∧ (t.verify_completion fs).1.description = t.description
    ∧ (t.verify_completion fs).1.status = t.status
    ∧ (t.verify_completion fs).1.files_expected = t.files_expected
    ∧ (t.verify_completion fs).1.files_created = t.files_created
    ∧ (t.verify_completion fs).1.tool_used = t.tool_used
    ∧ (t.verify_completion fs).1.iteration_started = t.iteration_started
    ∧ (t.verify_completion fs).1.iteration_completed = t.iteration_completed
    ∧ (t.verify_completion fs).1.retry_count = t.retry_count
    ∧ (t.verify_completion fs).1.max_retries = t.max_retries := by
  simp only [TaskState.verify_completion, TaskState.verify_files_exist]
  split_ifs <;> exact ⟨rfl, rfl, rfl, rfl, rfl, rfl, rfl, rfl, rfl, rfl, rfl⟩

/-! ### Selection-scan lemmas -/

theorem selectNext_none_iff (ts : List TaskState) :
    selectNext ts = none ↔ ∀ t ∈ ts, ¬actionable t := by
  induction ts with
  | nil => simp [selectNext]
  | cons t rest ih =>
    constructor
    · intro h u hu
      by_cases hp : t.status = TaskStatus.pending
      · simp [selectNext, hp] at h
      · by_cases hf : t.status = TaskStatus.failed ∧ t.can_retry = true
        · simp [selectNext, hp, hf] at h
        · simp only [selectNext, if_neg hp, if_neg hf] at h
          have hrest : selectNext rest = none := by
            cases hsel : selectNext rest with
            | none => rfl
            | some x =>
              rw [hsel] at h
              obtain ⟨pre, c, post⟩ := x
              simp at h
          rcases List.mem_cons.mp hu with rfl | hu'
          · intro ha
            rcases ha with h1 | h2
            · exact hp h1
            · exact hf h2
          · exact (ih.mp hrest) u hu'
    · intro h
      have hp : ¬t.status = TaskStatus.pending :=
        fun hc => h t (List.mem_cons_self _ _) (Or.inl hc)
      have hf : ¬(t.status = TaskStatus.failed ∧ t.can_retry = true) :=
        fun hc => h t (List.mem_cons_self _ _) (Or.inr hc)
      simp only [selectNext, if_neg hp, if_neg hf]
      rw [ih.mpr (fun u hu => h u (List.mem_cons_of_mem _ hu))]

theorem selectNext_some_chars (ts : List TaskState) :
    ∀ pre c post, selectNext ts = some (pre, c, post) →
      ∃ t0, ts = pre ++ t0 :: post ∧ (∀ u ∈ pre, ¬actionable u) ∧ actionable t0 ∧
        c = (if t0.status = TaskStatus.pending then t0
             else { t0 with retry_count := t0.retry_count + 1 }) := by
  induction ts with
  | nil => intro pre c post h; simp [selectNext] at h
  | cons t rest ih =>
    intro pre c post h
    by_cases hp : t.status = TaskStatus.pending
    · simp only [selectNext, if_pos hp, Option.some.injEq, Prod.mk.injEq] at h
      obtain ⟨h1, h2, h3⟩ := h
      subst h1; subst h2; subst h3
      exact ⟨t, by simp, by simp, Or.inl hp, by rw [if_pos hp]⟩
    · by_cases hf : t.status = TaskStatus.failed ∧ t.can_retry = true
      · simp only [selectNext, if_neg hp, if_pos hf, Option.some.injEq, Prod.mk.injEq] at h
        obtain ⟨h1, h2, h3⟩ := h
        subst h1; subst h2; subst h3
        exact ⟨t, by simp, by simp, Or.inr hf, by rw [if_neg hp]⟩
      · simp only [selectNext, if_neg hp, if_neg hf] at h
        cases hsel : selectNext rest with
        | none =>
          rw [hsel] at h
          simp at h
        | some x =>
          obtain ⟨pre', c', post'⟩ := x
          rw [hsel] at h
          simp only [Option.some.injEq, Prod.mk.injEq] at h
          obtain ⟨h1, h2, h3⟩ := h
          obtain ⟨t0, hts, hpre, hact, hc⟩ := ih pre' c' post' hsel
          subst h2; subst h3
          refine ⟨t0, ?_, ?_, hact, hc⟩
          · rw [← h1, hts]
            rfl
          · intro u hu
            rw [← h1] at hu
            rcases List.mem_cons.mp hu with rfl | hu'
            · intro ha
              rcases ha with ha1 | ha2
              · exact hp ha1
              · exact hf ha2
            · exact hpre u hu'

/-- A non-actionable task at position `j` is never the selected position. -/
theorem selectNext_not_at (ts : List TaskState) (j : Nat) (t : TaskState)
    (ht : ts[j]? = some t) (hna : ¬actionable t) :
    ∀ pre c post, selectNext ts = some (pre, c, post) → pre.length ≠ j := by
  intro pre c post hsel hj
  obtain ⟨t0, hts, _, hact, _⟩ := selectNext_some_chars ts pre c post hsel
  rw [hts] at ht
  rw [← hj] at ht
  rw [getElem?_middle] at ht
  cases ht
  exact hna hact

/-! ### C4: get_next_task -/

/-- C4: `get_next_task` scans the plan in order and returns the first task
that is `Pending` or `Failed`-and-retryable (incrementing the retry count of
a selected failed task in place, every earlier task being non-selectable);
it returns `none` exactly when no task is pending and no failed task can
retry, leaving the plan unchanged.  Since the scan is from the start, a
retryable failed task earlier in the plan is selected before any later
pending task. -/
theorem get_next_task_chars (p : TaskPlan) :
    ((p.get_next_task).1 = none ↔ ∀ t ∈ p.tasks,
        ¬t.status = TaskStatus.pending ∧ ¬(t.status = TaskStatus.failed ∧ t.can_retry = true))
    ∧ ((p.get_next_task).1 = none → (p.get_next_task).2 = p)
    ∧ (∀ c, (p.get_next_task).1 = some c →
        ∃ pre t0 post, p.tasks = pre ++ t0 :: post
          ∧ (∀ u ∈ pre, ¬actionable u)
          ∧ actionable t0
          ∧ c = (if t0.status = TaskStatus.pending then t0
                 else { t0 with retry_count := t0.retry_count + 1 })
          ∧ (p.get_next_task).2.tasks = pre ++ c :: post) := by
  cases hsel : selectNext p.tasks with
  | none =>
    refine ⟨?_, ?_, ?_⟩
    · constructor
      · intro _ t ht
        exact not_or.mp ((selectNext_none_iff p.tasks).mp hsel t ht)
      · intro _
        simp [TaskPlan.get_next_task, hsel]
    · intro _
      simp [TaskPlan.get_next_task, hsel]
    · intro c hc
      simp [TaskPlan.get_next_task, hsel] at hc
  | some x =>
    obtain ⟨pre, c0, post⟩ := x
    obtain ⟨t0, hts, hpre, hact, hc0⟩ := selectNext_some_chars p.tasks pre c0 post hsel
    refine ⟨?_, ?_, ?_⟩
    · constructor
      · intro hnone
        simp [TaskPlan.get_next_task, hsel] at hnone
      · intro hall
        exfalso
        have ht0 : t0 ∈ p.tasks := by
          rw [hts]
          exact List.mem_append.mpr (Or.inr (List.mem_cons_self _ _))
        rcases hact with h1 | h2
        · exact (hall t0 ht0).1 h1
        · exact (hall t0 ht0).2 h2
    · intro hnone
      simp [TaskPlan.get_next_task, hsel] at hnone
    · intro c hc
      have hceq : c0 = c := by
        simpa [TaskPlan.get_next_task, hsel] using hc
      subst hceq
      exact ⟨pre, t0, post, hts, hpre, hact, hc0, by simp [TaskPlan.get_next_task, hsel]⟩

/-- C4 witness: the characterization instantiated on the concrete plan with
a done task followed by a retryable failed task, which is selected with its
retry count bumped. -/
theorem get_next_task_chars_witness :
    ∃ pre t0 post, planRetry.tasks = pre ++ t0 :: post
      ∧ (∀ u ∈ pre, ¬actionable u)
      ∧ actionable t0
      ∧ selRetry = (if t0.status = TaskStatus.pending then t0
             else { t0 with retry_count := t0.retry_count + 1 })
      ∧ (planRetry.get_next_task).2.tasks = pre ++ selRetry :: post :=
  (get_next_task_chars planRetry).2.2 selRetry (by decide)

/-! ### Loop-step structural lemmas -/

theorem update_task_state_retry (fs : FS) (t : TaskState) (a : AgentAction) (r : ToolResult)
    (it : Nat) :
    (update_task_state fs t a r it).retry_count = t.retry_count
    ∧ (update_task_state fs t a r it).max_retries = t.max_retries := by
  simp only [update_task_state, TaskState.verify_files_exist]
  split_ifs <;> exact ⟨rfl, rfl⟩

theorem finishIter_parts (fs : FS) (ctx : AgentContext) (p : TaskPlan) (ts : List TaskState) :
    (finishIter fs ctx p ts).1.ctx = ctx
    ∧ (finishIter fs ctx p ts).1.plan.tasks = (isCompleteAux fs ts).1
    ∧ ((finishIter fs ctx p ts).2 = StepOutcome.proceed ↔ (isCompleteAux fs ts).2 = false) := by
  unfold finishIter TaskPlan.is_complete
  refine ⟨rfl, rfl, ?_⟩
  by_cases h : (isCompleteAux fs ts).2 <;> simp [h]

theorem execStep_exhausted (inp : StepInput) (s : LoopState)
    (hsel : selectNext s.plan.tasks = none) :
    execStep inp s = (⟨{ s.ctx with iteration := s.ctx.iteration + 1 }, s.plan⟩,
      StepOutcome.exhausted) := by
  simp [execStep, hsel]

theorem execStep_ctx_fields (inp : StepInput) (s : LoopState) :
    (execStep inp s).1.ctx.iteration = s.ctx.iteration + 1
    ∧ (execStep inp s).1.ctx.max_iterations = s.ctx.max_iterations
    ∧ (execStep inp s).1.ctx.max_consecutive_errors = s.ctx.max_consecutive_errors := by
  cases hsel : selectNext s.plan.tasks with
  | none => simp [execStep, hsel]
  | some x =>
    obtain ⟨pre, c0, post⟩ := x
    simp only [execStep, hsel]
    cases hty : inp.action.type <;>
      simp [completeBranch, errorBranch, toolBranch, finishIter, TaskPlan.is_complete,
        AgentContext.add_error, AgentContext.reset_error_counter, AgentContext.add_tool_result,
        apply_ite (fun z : LoopState × StepOutcome => z.1.ctx.iteration),
        apply_ite (fun z : LoopState × StepOutcome => z.1.ctx.max_iterations),
        apply_ite (fun z : LoopState × StepOutcome => z.1.ctx.max_consecutive_errors)]

theorem update_task_state_fail (fs : FS) (t : TaskState) (a : AgentAction) (r : ToolResult)
    (it : Nat) (h : r.success = false) :
    update_task_state fs t a r it =
      { t with tool_used := a.tool_name, status := TaskStatus.failed, error := r.error } := by
  simp only [update_task_state]
  rw [if_pos (by simp [h])]

theorem execStep_eq_completeBranch (inp : StepInput) (s : LoopState)
    (pre : List TaskState) (c0 : TaskState) (post : List TaskState)
    (hsel : selectNext s.plan.tasks = some (pre, c0, post))
    (hty : inp.action.type = ActionType.complete) :
    execStep inp s = completeBranch inp.fs (bumpCtx s.ctx) s.plan pre
      (markInProgress c0 (s.ctx.iteration + 1)) post := by
  simp only [execStep, hsel, hty]
  rfl

theorem execStep_eq_errorBranch (inp : StepInput) (s : LoopState)
    (pre : List TaskState) (c0 : TaskState) (post : List TaskState)
    (hsel : selectNext s.plan.tasks = some (pre, c0, post))
    (hty : inp.action.type = ActionType.error) :
    execStep inp s = errorBranch (bumpCtx s.ctx) s.plan pre
      (markInProgress c0 (s.ctx.iteration + 1)) post inp.action.message := by
  simp only [execStep, hsel, hty]
  rfl

theorem execStep_eq_toolBranch (inp : StepInput) (s : LoopState)
    (pre : List TaskState) (c0 : TaskState) (post : List TaskState)
    (hsel : selectNext s.plan.tasks = some (pre, c0, post))
    (hty : inp.action.type = ActionType.tool_use ∨ inp.action.type = ActionType.clarify) :
    execStep inp s = toolBranch inp (bumpCtx s.ctx) s.plan pre
      (markInProgress c0 (s.ctx.iteration + 1)) post := by
  rcases hty with h | h <;>
    (simp only [execStep, hsel, h]; rfl)

theorem completeBranch_cases (fsx : FS) (ctx : AgentContext) (p : TaskPlan)
    (pre : List TaskState) (cur : TaskState) (post : List TaskState) :
    ((cur.verify_completion fsx).2 = true ∧
      completeBranch fsx ctx p pre cur post =
        (⟨ctx.reset_error_counter,
          { p with tasks := pre ++ { (cur.verify_completion fsx).1 with
              status := TaskStatus.done, iteration_completed := some ctx.iteration } :: post }⟩,
         StepOutcome.proceed))
    ∨ ((cur.verify_completion fsx).2 = false ∧
        (ctx.add_error (claimsCompleteMsg cur.name)).should_stop_due_to_errors = true ∧
        completeBranch fsx ctx p pre cur post =
          (⟨ctx.add_error (claimsCompleteMsg cur.name),
            { p with tasks := pre ++ { (cur.verify_completion fsx).1 with
                status := TaskStatus.failed,
                error := some (stoppedMsg (ctx.consecutive_errors + 1) "validation failures") }
              :: post }⟩,
           StepOutcome.halted))
    ∨ ((cur.verify_completion fsx).2 = false ∧
        (ctx.add_error (claimsCompleteMsg cur.name)).should_stop_due_to_errors = false ∧
        completeBranch fsx ctx p pre cur post =
          (⟨ctx.add_error (claimsCompleteMsg cur.name),
            { p with tasks := pre ++ { (cur.verify_completion fsx).1 with
                status := TaskStatus.failed } :: post }⟩,
           StepOutcome.proceed)) := by
  by_cases hv : (cur.verify_completion fsx).2 = true
  · left
    refine ⟨hv, ?_⟩
    simp only [completeBranch]
    rw [if_pos hv]
  · have hv2 : (cur.verify_completion fsx).2 = false := by simpa using hv
    by_cases hstop : (ctx.add_error (claimsCompleteMsg cur.name)).should_stop_due_to_errors = true
    · right; left
      refine ⟨hv2, hstop, ?_⟩
      simp only [completeBranch]
      rw [if_neg hv, if_pos hstop]
      exact rfl
    · right; right
      refine ⟨hv2, by simpa using hstop, ?_⟩
      simp only [completeBranch]
      rw [if_neg hv, if_neg hstop]

theorem errorBranch_cases (ctx : AgentContext) (p : TaskPlan)
    (pre : List TaskState) (cur : TaskState) (post : List TaskState) (msg : Option String) :
    ((ctx.add_error (errActionMsg msg)).should_stop_due_to_errors = true ∧
      errorBranch ctx p pre cur post msg =
        (⟨ctx.add_error (errActionMsg msg),
          { p with tasks := pre ++ { cur with
              status := TaskStatus.failed,
              error := some (stoppedMsg (ctx.consecutive_errors + 1) "errors") } :: post }⟩,
         StepOutcome.halted))
    ∨ ((ctx.add_error (errActionMsg msg)).should_stop_due_to_errors = false ∧
        errorBranch ctx p pre cur post msg =
          (⟨ctx.add_error (errActionMsg msg),
            { p with tasks := pre ++ { cur with
                error := some ("Action error: " ++ errActionMsg msg) } :: post }⟩,
           StepOutcome.proceed)) := by
  by_cases hstop : (ctx.add_error (errActionMsg msg)).should_stop_due_to_errors = true
  · left
    refine ⟨hstop, ?_⟩
    simp only [errorBranch]
    rw [if_pos hstop]
    exact rfl
  · right
    refine ⟨by simpa using hstop, ?_⟩
    simp only [errorBranch]
    rw [if_neg hstop]

theorem toolBranch_cases (inp : StepInput) (ctx : AgentContext) (p : TaskPlan)
    (pre : List TaskState) (cur : TaskState) (post : List TaskState) :
    ((truthyStr inp.action.tool_name && truthyParams inp.action.parameters) = false ∧
      toolBranch inp ctx p pre cur post = finishIter inp.fs ctx p (pre ++ cur :: post))
    ∨ (∃ cur1, cur1 = update_task_state inp.fs cur inp.action inp.toolResult ctx.iteration ∧
        (truthyStr inp.action.tool_name && truthyParams inp.action.parameters) = true ∧
        (((inp.toolResult.success && decide (cur1.status = TaskStatus.done)) = true ∧
          toolBranch inp ctx p pre cur post =
            finishIter inp.fs (ctx.add_tool_result inp.toolResult).reset_error_counter p
              (pre ++ cur1 :: post))
        ∨ ((inp.toolResult.success && decide (cur1.status = TaskStatus.done)) = false ∧
            inp.toolResult.success = false ∧
            (((ctx.add_tool_result inp.toolResult).add_error
                  (toolFailedMsg inp.action.tool_name inp.toolResult.error)).should_stop_due_to_errors = true ∧
              toolBranch inp ctx p pre cur post =
                (⟨(ctx.add_tool_result inp.toolResult).add_error
                    (toolFailedMsg inp.action.tool_name inp.toolResult.error),
                  { p with tasks := pre ++ { cur1 with
                      status := TaskStatus.failed,
                      error := some (stoppedMsg (ctx.consecutive_errors + 1) "errors") } :: post }⟩,
                 StepOutcome.halted)
            ∨ (((ctx.add_tool_result inp.toolResult).add_error
                  (toolFailedMsg inp.action.tool_name inp.toolResult.error)).should_stop_due_to_errors = false ∧
              toolBranch inp ctx p pre cur post =
                finishIter inp.fs
                  ((ctx.add_tool_result inp.toolResult).add_error
                    (toolFailedMsg inp.action.tool_name inp.toolResult.error)) p
                  (pre ++ cur1 :: post))))
        ∨ ((inp.toolResult.success && decide (cur1.status = TaskStatus.done)) = false ∧
            inp.toolResult.success = true ∧ cur1.status = TaskStatus.failed ∧
            (((ctx.add_tool_result inp.toolResult).add_error
                  (verifFailedMsg inp.action.tool_name cur1.error)).should_stop_due_to_errors = true ∧
              toolBranch inp ctx p pre cur post =
                (⟨(ctx.add_tool_result inp.toolResult).add_error
                    (verifFailedMsg inp.action.tool_name cur1.error),
                  { p with tasks := pre ++ { cur1 with
                      error := some (stoppedMsg (ctx.consecutive_errors + 1)
                        "verification failures") } :: post }⟩,
                 StepOutcome.halted)
            ∨ (((ctx.add_tool_result inp.toolResult).add_error
                  (verifFailedMsg inp.action.tool_name cur1.error)).should_stop_due_to_errors = false ∧
              toolBranch inp ctx p pre cur post =
                finishIter inp.fs
                  ((ctx.add_tool_result inp.toolResult).add_error
                    (verifFailedMsg inp.action.tool_name cur1.error)) p
                  (pre ++ cur1 :: post))))
        ∨ ((inp.toolResult.success && decide (cur1.status = TaskStatus.done)) = false ∧
            inp.toolResult.success = true ∧ ¬cur1.status = TaskStatus.failed ∧
            toolBranch inp ctx p pre cur post =
              finishIter inp.fs (ctx.add_tool_result inp.toolResult) p (pre ++ cur1 :: post)))) := by
  by_cases hdisp : (truthyStr inp.action.tool_name && truthyParams inp.action.parameters) = true
  · right
    refine ⟨update_task_state inp.fs cur inp.action inp.toolResult ctx.iteration, rfl, hdisp, ?_⟩
    by_cases hsd : (inp.toolResult.success &&
        decide ((update_task_state inp.fs cur inp.action inp.toolResult ctx.iteration).status =
          TaskStatus.done)) = true
    · left
      refine ⟨hsd, ?_⟩
      simp only [toolBranch]
      rw [if_pos hdisp, if_pos hsd]
    · have hsd2 := Bool.not_eq_true _ ▸ hsd
      by_cases hfail : inp.toolResult.success = false
      · right; left
        refine ⟨by simpa using hsd, hfail, ?_⟩
        by_cases hstop : ((ctx.add_tool_result inp.toolResult).add_error
            (toolFailedMsg inp.action.tool_name inp.toolResult.error)).should_stop_due_to_errors = true
        · left
          refine ⟨hstop, ?_⟩
          simp only [toolBranch]
          rw [if_pos hdisp, if_neg hsd, if_pos (by simp [hfail]), if_pos hstop]
          exact rfl
        · right
          refine ⟨by simpa using hstop, ?_⟩
          simp only [toolBranch]
          rw [if_pos hdisp, if_neg hsd, if_pos (by simp [hfail]), if_neg hstop]
      · have hsucc : inp.toolResult.success = true := by
          simpa using hfail
        by_cases hvf : (update_task_state inp.fs cur inp.action inp.toolResult
            ctx.iteration).status = TaskStatus.failed
        · right; right; left
          refine ⟨by simpa using hsd, hsucc, hvf, ?_⟩
          by_cases hstop : ((ctx.add_tool_result inp.toolResult).add_error
              (verifFailedMsg inp.action.tool_name
                (update_task_state inp.fs cur inp.action inp.toolResult
                  ctx.iteration).error)).should_stop_due_to_errors = true
          · left
            refine ⟨hstop, ?_⟩
            simp only [toolBranch]
            rw [if_pos hdisp, if_neg hsd, if_neg (by simp [hsucc]),
              if_pos (by simp [hvf]), if_pos hstop]
            exact rfl
          · right
            refine ⟨by simpa using hstop, ?_⟩
            simp only [toolBranch]
            rw [if_pos hdisp, if_neg hsd, if_neg (by simp [hsucc]),
              if_pos (by simp [hvf]), if_neg hstop]
        · right; right; right
          refine ⟨by simpa using hsd, hsucc, hvf, ?_⟩
          simp only [toolBranch]
          rw [if_pos hdisp, if_neg hsd, if_neg (by simp [hsucc]), if_neg (by simp [hvf])]
  · left
    refine ⟨by simpa using hdisp, ?_⟩
    simp only [toolBranch]
    rw [if_neg hdisp]

/-- Every iteration with a selected task rebuilds the task list around one
transformed current task, either directly or through the end-of-iteration
completion check; the transformation preserves the selected task's
`retry_count` and `max_retries`. -/
theorem execStep_tasks_shape (inp : StepInput) (s : LoopState)
    (pre : List TaskState) (c0 : TaskState) (post : List TaskState)
    (hsel : selectNext s.plan.tasks = some (pre, c0, post)) :
    ∃ mid, ((execStep inp s).1.plan.tasks = pre ++ mid :: post
      ∨ (execStep inp s).1.plan.tasks = (isCompleteAux inp.fs (pre ++ mid :: post)).1)
      ∧ mid.retry_count = c0.retry_count ∧ mid.max_retries = c0.max_retries := by
  cases hty : inp.action.type
  case complete =>
    rw [execStep_eq_completeBranch inp s pre c0 post hsel hty]
    rcases completeBranch_cases inp.fs (bumpCtx s.ctx) s.plan pre
        (markInProgress c0 (s.ctx.iteration + 1)) post with
      ⟨hv, heq⟩ | ⟨hv, hstop, heq⟩ | ⟨hv, hstop, heq⟩ <;>
      rw [heq] <;>
      exact ⟨_, Or.inl rfl,
        (verify_completion_core inp.fs _).2.2.2.2.2.2.2.2.2.1,
        (verify_completion_core inp.fs _).2.2.2.2.2.2.2.2.2.2⟩
  case error =>
    rw [execStep_eq_errorBranch inp s pre c0 post hsel hty]
    rcases errorBranch_cases (bumpCtx s.ctx) s.plan pre
        (markInProgress c0 (s.ctx.iteration + 1)) post inp.action.message with
      ⟨hstop, heq⟩ | ⟨hstop, heq⟩ <;>
      rw [heq] <;>
      exact ⟨_, Or.inl rfl, rfl, rfl⟩
  case tool_use =>
    rw [execStep_eq_toolBranch inp s pre c0 post hsel (Or.inl hty)]
    rcases toolBranch_cases inp (bumpCtx s.ctx) s.plan pre
        (markInProgress c0 (s.ctx.iteration + 1)) post with
      ⟨hd, heq⟩ | ⟨cur1, hcur1, hd, hcase⟩
    · rw [heq, (finishIter_parts _ _ _ _).2.1]
      exact ⟨_, Or.inr rfl, rfl, rfl⟩
    · have hrc : cur1.retry_count = c0.retry_count := by
        rw [hcur1]
        exact (update_task_state_retry inp.fs _ _ _ _).1
      have hmr : cur1.max_retries = c0.max_retries := by
        rw [hcur1]
        exact (update_task_state_retry inp.fs _ _ _ _).2
      rcases hcase with ⟨hsd, heq⟩ | ⟨hsd, hf, ⟨hstop, heq⟩ | ⟨hstop, heq⟩⟩ |
          ⟨hsd, hsc, hvf, ⟨hstop, heq⟩ | ⟨hstop, heq⟩⟩ | ⟨hsd, hsc, hvf, heq⟩ <;>
        rw [heq] <;>
        first
          | (rw [(finishIter_parts _ _ _ _).2.1]; exact ⟨cur1, Or.inr rfl, hrc, hmr⟩)
          | exact ⟨_, Or.inl rfl, hrc, hmr⟩
  case clarify =>
    rw [execStep_eq_toolBranch inp s pre c0 post hsel (Or.inr hty)]
    rcases toolBranch_cases inp (bumpCtx s.ctx) s.plan pre
        (markInProgress c0 (s.ctx.iteration + 1)) post with
      ⟨hd, heq⟩ | ⟨cur1, hcur1, hd, hcase⟩
    · rw [heq, (finishIter_parts _ _ _ _).2.1]
      exact ⟨_, Or.inr rfl, rfl, rfl⟩
    · have hrc : cur1.retry_count = c0.retry_count := by
        rw [hcur1]
        exact (update_task_state_retry inp.fs _ _ _ _).1
      have hmr : cur1.max_retries = c0.max_retries := by
        rw [hcur1]
        exact (update_task_state_retry inp.fs _ _ _ _).2
      rcases hcase with ⟨hsd, heq⟩ | ⟨hsd, hf, ⟨hstop, heq⟩ | ⟨hstop, heq⟩⟩ |
          ⟨hsd, hsc, hvf, ⟨hstop, heq⟩ | ⟨hstop, heq⟩⟩ | ⟨hsd, hsc, hvf, heq⟩ <;>
        rw [heq] <;>
        first
          | (rw [(finishIter_parts _ _ _ _).2.1]; exact ⟨cur1, Or.inr rfl, hrc, hmr⟩)
          | exact ⟨_, Or.inl rfl, hrc, hmr⟩

/-- A task that is not selectable and not `done` is untouched by a loop
iteration. -/
theorem execStep_preserves_stuck (inp : StepInput) (s : LoopState) (j : Nat) (t : TaskState)
    (ht : s.plan.tasks[j]? = some t) (hna : ¬actionable t)
    (hnd : ¬t.status = TaskStatus.done) :
    (execStep inp s).1.plan.tasks[j]? = some t := by
  cases hsel : selectNext s.plan.tasks with
  | none =>
    rw [execStep_exhausted inp s hsel]
    exact ht
  | some x =>
    obtain ⟨pre, c0, post⟩ := x
    obtain ⟨t0, hts, hpre, hact, hc0⟩ := selectNext_some_chars _ _ _ _ hsel
    have hj : pre.length ≠ j := selectNext_not_at _ j t ht hna pre c0 post hsel
    have htj : ∀ x : TaskState, (pre ++ x :: post)[j]? = some t := by
      intro x
      rw [getElem?_middle_ne pre post x t0 j (fun h => hj h.symm), ← hts]
      exact ht
    obtain ⟨mid, hshape, _, _⟩ := execStep_tasks_shape inp s pre c0 post hsel
    rcases hshape with h | h
    · rw [h]
      exact htj mid
    · rw [h]
      rcases isCompleteAux_pointwise inp.fs (pre ++ mid :: post) j t (htj mid) with h2 | h2
      · exact h2
      · exact absurd h2.2 hnd

/-- Iterated version of the preservation lemma. -/
theorem foldSteps_preserves_stuck (l : List StepInput) (s : LoopState) (j : Nat) (t : TaskState)
    (ht : s.plan.tasks[j]? = some t) (hna : ¬actionable t)
    (hnd : ¬t.status = TaskStatus.done) :
    (foldSteps s l).plan.tasks[j]? = some t := by
  induction l generalizing s with
  | nil => exact ht
  | cons inp rest ih =>
    exact ih _ (execStep_preserves_stuck inp s j t ht hna hnd)

theorem can_retry_lt (t : TaskState) (h : t.can_retry = true) :
    t.status = TaskStatus.failed ∧ t.retry_count < t.max_retries := by
  simpa [TaskState.can_retry] using h

/-- Pointwise retry accounting across one loop iteration. -/
theorem execStep_retry_pointwise (inp : StepInput) (s : LoopState) (j : Nat) (t : TaskState)
    (ht : s.plan.tasks[j]? = some t) :
    ∃ t', (execStep inp s).1.plan.tasks[j]? = some t'
      ∧ t.retry_count ≤ t'.retry_count
      ∧ t'.max_retries = t.max_retries
      ∧ (t.retry_count ≤ t.max_retries → t'.retry_count ≤ t'.max_retries)
      ∧ (t'.retry_count ≠ t.retry_count →
          t.status = TaskStatus.failed ∧ t'.retry_count = t.retry_count + 1
          ∧ ∃ pre c post, selectNext s.plan.tasks = some (pre, c, post) ∧ pre.length = j) := by
  cases hsel : selectNext s.plan.tasks with
  | none =>
    rw [execStep_exhausted inp s hsel]
    exact ⟨t, ht, le_refl _, rfl, fun h => h, fun h => absurd rfl h⟩
  | some x =>
    obtain ⟨pre, c0, post⟩ := x
    obtain ⟨t0, hts, hpre, hact, hc0⟩ := selectNext_some_chars _ _ _ _ hsel
    obtain ⟨mid, hshape, hrc, hmr⟩ := execStep_tasks_shape inp s pre c0 post hsel
    by_cases hj : j = pre.length
    · subst hj
      rw [hts, getElem?_middle] at ht
      injection ht with ht0
      subst ht0
      have hsel' : ∃ pre2 c2 post2, selectNext s.plan.tasks = some (pre2, c2, post2)
          ∧ pre2.length = pre.length := ⟨pre, c0, post, hsel, rfl⟩
      have hc0rc : c0.retry_count = t0.retry_count
          ∨ (c0.retry_count = t0.retry_count + 1 ∧ t0.status = TaskStatus.failed
              ∧ t0.retry_count < t0.max_retries) := by
        by_cases hp : t0.status = TaskStatus.pending
        · rw [hc0, if_pos hp]
          exact Or.inl rfl
        · rcases hact with h1 | h2
          · exact absurd h1 hp
          · obtain ⟨hf, hlt⟩ := can_retry_lt t0 h2.2
            rw [hc0, if_neg hp]
            exact Or.inr ⟨rfl, hf, hlt⟩
      have hc0mr : c0.max_retries = t0.max_retries := by
        by_cases hp : t0.status = TaskStatus.pending
        · rw [hc0, if_pos hp]
        · rw [hc0, if_neg hp]
      have hmid : (execStep inp s).1.plan.tasks[pre.length]? = some mid
          ∨ ((execStep inp s).1.plan.tasks[pre.length]? = some (mid.verify_completion inp.fs).1) := by
        rcases hshape with h | h
        · rw [h, getElem?_middle]
          exact Or.inl rfl
        · rw [h]
          rcases isCompleteAux_pointwise inp.fs (pre ++ mid :: post) pre.length mid
              (getElem?_middle pre post mid) with h2 | h2
          · exact Or.inl h2
          · exact Or.inr h2.1
      rcases hmid with hm | hm
      · refine ⟨mid, hm, ?_, ?_, ?_, ?_⟩
        · rcases hc0rc with h | h
          · rw [hrc, h]
          · rw [hrc, h.1]
            exact Nat.le_succ _
        · rw [hmr, hc0mr]
        · intro hb
          rcases hc0rc with h | h
          · rw [hrc, h, hmr, hc0mr]
            exact hb
          · rw [hrc, h.1, hmr, hc0mr]
            exact h.2.2
        · intro hne
          rcases hc0rc with h | h
          · exact absurd (hrc.trans h) hne
          · exact ⟨h.2.1, hrc.trans h.1, pre, c0, post, rfl, rfl⟩
      · have hrc2 : (mid.verify_completion inp.fs).1.retry_count = mid.retry_count :=
          (verify_completion_core inp.fs mid).2.2.2.2.2.2.2.2.2.1
        have hmr2 : (mid.verify_completion inp.fs).1.max_retries = mid.max_retries :=
          (verify_completion_core inp.fs mid).2.2.2.2.2.2.2.2.2.2
        refine ⟨(mid.verify_completion inp.fs).1, hm, ?_, ?_, ?_, ?_⟩
        · rcases hc0rc with h | h
          · rw [hrc2, hrc, h]
          · rw [hrc2, hrc, h.1]
            exact Nat.le_succ _
        · rw [hmr2, hmr, hc0mr]
        · intro hb
          rcases hc0rc with h | h
          · rw [hrc2, hrc, h, hmr2, hmr, hc0mr]
            exact hb
          · rw [hrc2, hrc, h.1, hmr2, hmr, hc0mr]
            exact h.2.2
        · intro hne
          rcases hc0rc with h | h
          · exact absurd ((hrc2.trans hrc).trans h) hne
          · exact ⟨h.2.1, (hrc2.trans hrc).trans h.1, pre, c0, post, rfl, rfl⟩
    · have htj : ∀ x : TaskState, (pre ++ x :: post)[j]? = some t := by
        intro x
        rw [getElem?_middle_ne pre post x t0 j hj, ← hts]
        exact ht
      have hel : (execStep inp s).1.plan.tasks[j]? = some t
          ∨ ((execStep inp s).1.plan.tasks[j]? = some (t.verify_completion inp.fs).1) := by
        rcases hshape with h | h
        · rw [h]
          exact Or.inl (htj mid)
        · rw [h]
          rcases isCompleteAux_pointwise inp.fs (pre ++ mid :: post) j t (htj mid) with h2 | h2
          · exact Or.inl h2
          · exact Or.inr h2.1
      rcases hel with hm | hm
      · exact ⟨t, hm, le_refl _, rfl, fun h => h, fun h => absurd rfl h⟩
      · have hrc2 : (t.verify_completion inp.fs).1.retry_count = t.retry_count :=
          (verify_completion_core inp.fs t).2.2.2.2.2.2.2.2.2.1
        have hmr2 : (t.verify_completion inp.fs).1.max_retries = t.max_retries :=
          (verify_completion_core inp.fs t).2.2.2.2.2.2.2.2.2.2
        refine ⟨(t.verify_completion inp.fs).1, hm, le_of_eq hrc2.symm, hmr2, ?_, ?_⟩
        · intro hb
          rw [hrc2, hmr2]
          exact hb
        · intro hne
          exact absurd hrc2 hne

/-! ### C3: retry accounting -/

/-- C3: (1) `get_next_task` never decreases a retry count; it changes a
count only for the selected task, only when it was `Failed`, by exactly one,
never beyond `max_retries`.  (2) One loop iteration preserves every task's
count except for that selection increment (the sole increment site), keeps
counts within their bounds, and never decreases them — so counts are
non-decreasing over the run.  (3) A `Failed` task whose retries are
exhausted is never selected again and is untouched by every further
iteration. -/
theorem retry_count_accounting :
    (∀ (p : TaskPlan) (j : Nat) (t : TaskState), p.tasks[j]? = some t →
      ∃ t', (p.get_next_task).2.tasks[j]? = some t'
        ∧ t.retry_count ≤ t'.retry_count ∧ t'.max_retries = t.max_retries
        ∧ (t'.retry_count ≠ t.retry_count →
            t.status = TaskStatus.failed ∧ t'.retry_count = t.retry_count + 1
            ∧ t'.retry_count ≤ t.max_retries ∧ (p.get_next_task).1 = some t'))
    ∧ (∀ (inp : StepInput) (s : LoopState) (j : Nat) (t : TaskState),
        s.plan.tasks[j]? = some t →
        ∃ t', (execStep inp s).1.plan.tasks[j]? = some t'
          ∧ t.retry_count ≤ t'.retry_count ∧ t'.max_retries = t.max_retries
          ∧ (t.retry_count ≤ t.max_retries → t'.retry_count ≤ t'.max_retries)
          ∧ (t'.retry_count ≠ t.retry_count →
              t.status = TaskStatus.failed ∧ t'.retry_count = t.retry_count + 1
              ∧ ∃ pre c post, selectNext s.plan.tasks = some (pre, c, post)
                  ∧ pre.length = j))
    ∧ (∀ (s : LoopState) (j : Nat) (t : TaskState),
        s.plan.tasks[j]? = some t → t.status = TaskStatus.failed →
        t.max_retries ≤ t.retry_count →
        (∀ l : List StepInput, (foldSteps s l).plan.tasks[j]? = some t)
        ∧ ∀ pre c post, selectNext s.plan.tasks = some (pre, c, post) → pre.length ≠ j) := by
  refine ⟨?_, ?_, ?_⟩
  · intro p j t ht
    cases hsel : selectNext p.tasks with
    | none =>
      refine ⟨t, ?_, le_refl _, rfl, fun h => absurd rfl h⟩
      simpa [TaskPlan.get_next_task, hsel] using ht
    | some x =>
      obtain ⟨pre, c0, post⟩ := x
      obtain ⟨t0, hts, hpre, hact, hc0⟩ := selectNext_some_chars _ _ _ _ hsel
      have h2tasks : (p.get_next_task).2.tasks = pre ++ c0 :: post := by
        simp [TaskPlan.get_next_task, hsel]
      have h1fst : (p.get_next_task).1 = some c0 := by
        simp [TaskPlan.get_next_task, hsel]
      by_cases hj : j = pre.length
      · subst hj
        rw [hts, getElem?_middle] at ht
        injection ht with ht0
        subst ht0
        refine ⟨c0, by rw [h2tasks]; exact getElem?_middle pre post c0, ?_, ?_, ?_⟩
        · by_cases hp : t0.status = TaskStatus.pending
          · rw [hc0, if_pos hp]
          · rw [hc0, if_neg hp]
            exact Nat.le_succ _
        · by_cases hp : t0.status = TaskStatus.pending
          · rw [hc0, if_pos hp]
          · rw [hc0, if_neg hp]
        · intro hne
          by_cases hp : t0.status = TaskStatus.pending
          · rw [hc0, if_pos hp] at hne
            exact absurd rfl hne
          · rcases hact with h1 | h2
            · exact absurd h1 hp
            · obtain ⟨hf, hlt⟩ := can_retry_lt t0 h2.2
              rw [hc0, if_neg hp] at h1fst ⊢
              exact ⟨hf, rfl, hlt, h1fst⟩
      · refine ⟨t, ?_, le_refl _, rfl, fun h => absurd rfl h⟩
        rw [h2tasks, getElem?_middle_ne pre post c0 t0 j hj, ← hts]
        exact ht
  · intro inp s j t ht
    obtain ⟨t', h1, h2, h3, h4, h5⟩ := execStep_retry_pointwise inp s j t ht
    exact ⟨t', h1, h2, h3, h4, h5⟩
  · intro s j t ht hf hmax
    have hna : ¬actionable t := by
      intro ha
      rcases ha with h1 | h2
      · rw [hf] at h1
        simp at h1
      · obtain ⟨_, hlt⟩ := can_retry_lt t h2.2
        omega
    have hnd : ¬t.status = TaskStatus.done := by
      rw [hf]
      simp
    exact ⟨fun l => foldSteps_preserves_stuck l s j t ht hna hnd,
           fun pre c post hsel => selectNext_not_at s.plan.tasks j t ht hna pre c post hsel⟩

/-- C3 witness: selection on the concrete retry plan bumps the failed
task's count from 0 to 1, within its bound of 3. -/
theorem retry_count_accounting_witness :
    ∃ t', (planRetry.get_next_task).2.tasks[1]? = some t'
      ∧ taskFB.retry_count ≤ t'.retry_count ∧ t'.max_retries = taskFB.max_retries
      ∧ (t'.retry_count ≠ taskFB.retry_count →
          taskFB.status = TaskStatus.failed ∧ t'.retry_count = taskFB.retry_count + 1
          ∧ t'.retry_count ≤ taskFB.max_retries ∧ (planRetry.get_next_task).1 = some t') :=
  retry_count_accounting.1 planRetry 1 taskFB (by decide)

/-! ### C5 and C10: Error and Clarify actions in the loop -/

/-- An iteration that dispatches no tool (action neither Complete nor Error,
and no truthy tool request): the context only gets its iteration bumped and
the tasks only pass through the completion check; the loop proceeds. -/
theorem execStep_skip (inp : StepInput) (s : LoopState)
    (pre : List TaskState) (c0 : TaskState) (post : List TaskState)
    (hsel : selectNext s.plan.tasks = some (pre, c0, post))
    (hty : inp.action.type = ActionType.tool_use ∨ inp.action.type = ActionType.clarify)
    (hnotool : (truthyStr inp.action.tool_name && truthyParams inp.action.parameters) = false) :
    (execStep inp s).1.ctx = bumpCtx s.ctx
    ∧ (execStep inp s).1.plan.tasks =
        (isCompleteAux inp.fs (pre ++ markInProgress c0 (s.ctx.iteration + 1) :: post)).1
    ∧ (execStep inp s).2 = StepOutcome.proceed := by
  rw [execStep_eq_toolBranch inp s pre c0 post hsel hty]
  rcases toolBranch_cases inp (bumpCtx s.ctx) s.plan pre
      (markInProgress c0 (s.ctx.iteration + 1)) post with
    ⟨hd, heq⟩ | ⟨cur1, hcur1, hd, hcase⟩
  · rw [heq]
    refine ⟨(finishIter_parts _ _ _ _).1, (finishIter_parts _ _ _ _).2.1, ?_⟩
    refine (finishIter_parts _ _ _ _).2.2.mpr ?_
    refine isCompleteAux_false_of_not_done _ _
      ⟨markInProgress c0 (s.ctx.iteration + 1), ?_, ?_⟩
    · exact List.mem_append.mpr (Or.inr (List.mem_cons_self _ _))
    · simp [markInProgress]
  · rw [hd] at hnotool
    cases hnotool

/-- The `Error` action branch: the message (or "Unknown error") is appended,
the counter incremented, and the loop halts at this iteration exactly when
the incremented counter reaches the cap, proceeding otherwise. -/
theorem execStep_error_action (inp : StepInput) (s : LoopState)
    (pre : List TaskState) (c0 : TaskState) (post : List TaskState)
    (hsel : selectNext s.plan.tasks = some (pre, c0, post))
    (hty : inp.action.type = ActionType.error) :
    (execStep inp s).1.ctx.errors = s.ctx.errors ++ [errActionMsg inp.action.message]
    ∧ (execStep inp s).1.ctx.consecutive_errors = s.ctx.consecutive_errors + 1
    ∧ (execStep inp s).2 =
        (if s.ctx.max_consecutive_errors ≤ s.ctx.consecutive_errors + 1
         then StepOutcome.halted else StepOutcome.proceed) := by
  rw [execStep_eq_errorBranch inp s pre c0 post hsel hty]
  rcases errorBranch_cases (bumpCtx s.ctx) s.plan pre
      (markInProgress c0 (s.ctx.iteration + 1)) post inp.action.message with
    ⟨hstop, heq⟩ | ⟨hstop, heq⟩ <;> rw [heq]
  · have hstop' : s.ctx.max_consecutive_errors ≤ s.ctx.consecutive_errors + 1 := by
      simpa [AgentContext.should_stop_due_to_errors, AgentContext.add_error, bumpCtx]
        using hstop
    exact ⟨rfl, rfl, by rw [if_pos hstop']⟩
  · have hstop' : ¬s.ctx.max_consecutive_errors ≤ s.ctx.consecutive_errors + 1 := by
      simpa [AgentContext.should_stop_due_to_errors, AgentContext.add_error, bumpCtx]
        using hstop
    exact ⟨rfl, rfl, by rw [if_neg hstop']⟩

/-- C5 counterexample: an `Error` action received with the counter below the
cap does not terminate the run: the iteration ends with `proceed` and the
loop performs another iteration (final iteration count 2, not 1).  A
`Clarify` action appends nothing and also proceeds. -/
theorem error_action_not_terminating :
    inpErrB.action.type = ActionType.error
    ∧ (execStep inpErrB sPend).2 = StepOutcome.proceed
    ∧ (runAux (fun _ => inpErrB) 10 sPend).ctx.iteration = 2
    ∧ inpClarifyN.action.type = ActionType.clarify
    ∧ (execStep inpClarifyN sDonePend).2 = StepOutcome.proceed
    ∧ (execStep inpClarifyN sDonePend).1.ctx.errors = [] :=
  ⟨rfl, by decide, by decide, rfl, by decide, by decide⟩

/-- C5 amended: an `Error` action appends its message to the error list and
increments the consecutive-error counter; the run terminates at that
iteration only when the counter reaches `max_consecutive_errors`, and
otherwise the loop proceeds to the next iteration.  A `Clarify` action is
not specially handled: when it carries no truthy tool request it appends no
error, leaves the counter unchanged, and the loop proceeds. -/
theorem error_clarify_loop_behavior :
    (∀ (inp : StepInput) (s : LoopState) (pre : List TaskState) (c0 : TaskState)
        (post : List TaskState),
      selectNext s.plan.tasks = some (pre, c0, post) →
      inp.action.type = ActionType.error →
      (execStep inp s).1.ctx.errors = s.ctx.errors ++ [errActionMsg inp.action.message]
      ∧ (execStep inp s).1.ctx.consecutive_errors = s.ctx.consecutive_errors + 1
      ∧ (execStep inp s).2 =
          (if s.ctx.max_consecutive_errors ≤ s.ctx.consecutive_errors + 1
           then StepOutcome.halted else StepOutcome.proceed))
    ∧ (∀ (inp : StepInput) (s : LoopState) (pre : List TaskState) (c0 : TaskState)
        (post : List TaskState),
      selectNext s.plan.tasks = some (pre, c0, post) →
      inp.action.type = ActionType.clarify →
      (truthyStr inp.action.tool_name && truthyParams inp.action.parameters) = false →
      (execStep inp s).1.ctx.errors = s.ctx.errors
      ∧ (execStep inp s).1.ctx.consecutive_errors = s.ctx.consecutive_errors
      ∧ (execStep inp s).2 = StepOutcome.proceed) := by
  constructor
  · intro inp s pre c0 post hsel hty
    exact execStep_error_action inp s pre c0 post hsel hty
  · intro inp s pre c0 post hsel hty hnotool
    obtain ⟨hctx, _, hout⟩ := execStep_skip inp s pre c0 post hsel (Or.inr hty) hnotool
    rw [hctx]
    exact ⟨rfl, rfl, hout⟩

/-- C5 witness: both amended behaviors on concrete runs. -/
theorem error_clarify_loop_behavior_witness :
    ((execStep inpErrB sPend).1.ctx.errors =
        sPend.ctx.errors ++ [errActionMsg inpErrB.action.message]
      ∧ (execStep inpErrB sPend).1.ctx.consecutive_errors =
          sPend.ctx.consecutive_errors + 1
      ∧ (execStep inpErrB sPend).2 =
          (if sPend.ctx.max_consecutive_errors ≤ sPend.ctx.consecutive_errors + 1
           then StepOutcome.halted else StepOutcome.proceed))
    ∧ ((execStep inpClarifyN sDonePend).1.ctx.errors = sDonePend.ctx.errors
      ∧ (execStep inpClarifyN sDonePend).1.ctx.consecutive_errors =
          sDonePend.ctx.consecutive_errors
      ∧ (execStep inpClarifyN sDonePend).2 = StepOutcome.proceed) :=
  ⟨error_clarify_loop_behavior.1 inpErrB sPend [] taskPendA [] (by decide) rfl,
   error_clarify_loop_behavior.2 inpClarifyN sDonePend [taskDoneA] taskPendB []
     (by decide) rfl rfl⟩

/-- C10 counterexample: a `Clarify` iteration leaves no error behind but
does change a field of a task other than the current one: the completion
check re-appends the verified file of the earlier `done` task. -/
theorem clarify_iteration_mutates_other_task :
    inpClarifyN.action.type = ActionType.clarify
    ∧ (execStep inpClarifyN sDonePend).1.ctx.errors = []
    ∧ (sDonePend.plan.tasks.map (fun t => t.files_verified)) = [["out/a.txt"], []]
    ∧ ((execStep inpClarifyN sDonePend).1.plan.tasks.map (fun t => t.files_verified))
        = [["out/a.txt", "out/a.txt"], []] :=
  ⟨rfl, by decide, by decide, by decide⟩

/-- C10 amended: in an iteration whose action is neither `Complete` nor
`Error` and carries no truthy `tool_name`-and-`parameters` (a typical
`Clarify`, or a `ToolUse` with missing or empty fields), no tool runs and no
error is appended: the context only gets its iteration bump; the selected
task is marked in progress with its start iteration recorded; every other
task is untouched except that a `done` task may be re-verified by the
end-of-iteration completion check (which never changes anything but
`files_verified` and `error`); the loop proceeds.  The task left
`InProgress` is never selected again and keeps exactly this state for the
rest of the run. -/
theorem clarify_or_toolless_iteration (inp : StepInput) (s : LoopState)
    (pre : List TaskState) (c0 : TaskState) (post : List TaskState)
    (hsel : selectNext s.plan.tasks = some (pre, c0, post))
    (hty : inp.action.type = ActionType.tool_use ∨ inp.action.type = ActionType.clarify)
    (hnotool : (truthyStr inp.action.tool_name && truthyParams inp.action.parameters) = false) :
    (execStep inp s).1.ctx = bumpCtx s.ctx
    ∧ (execStep inp s).2 = StepOutcome.proceed
    ∧ (execStep inp s).1.plan.tasks[pre.length]? =
        some (markInProgress c0 (s.ctx.iteration + 1))
    ∧ (∀ (j : Nat) (t : TaskState), j ≠ pre.length → s.plan.tasks[j]? = some t →
        (execStep inp s).1.plan.tasks[j]? = some t
        ∨ ((execStep inp s).1.plan.tasks[j]? = some (t.verify_completion inp.fs).1
            ∧ t.status = TaskStatus.done))
    ∧ (∀ t : TaskState, (t.verify_completion inp.fs).1.status = t.status
        ∧ (t.verify_completion inp.fs).1.retry_count = t.retry_count
        ∧ (t.verify_completion inp.fs).1.files_expected = t.files_expected
        ∧ (t.verify_completion inp.fs).1.files_created = t.files_created
        ∧ (t.verify_completion inp.fs).1.iteration_started = t.iteration_started)
    ∧ (∀ l : List StepInput,
        (foldSteps (execStep inp s).1 l).plan.tasks[pre.length]? =
          some (markInProgress c0 (s.ctx.iteration + 1)))
    ∧ (∀ (ts : List TaskState) (j : Nat) (u : TaskState), ts[j]? = some u →
        u.status = TaskStatus.in_progress →
        ∀ pre2 c2 post2, selectNext ts = some (pre2, c2, post2) → pre2.length ≠ j) := by
  obtain ⟨hctx, htasks, hout⟩ := execStep_skip inp s pre c0 post hsel hty hnotool
  obtain ⟨t0, hts, hpre, hact, hc0⟩ := selectNext_some_chars _ _ _ _ hsel
  have hna : ¬actionable (markInProgress c0 (s.ctx.iteration + 1)) := by
    intro ha
    rcases ha with h1 | h2
    · simp [markInProgress] at h1
    · simp [markInProgress, TaskState.can_retry] at h2
  have hnd : ¬(markInProgress c0 (s.ctx.iteration + 1)).status = TaskStatus.done := by
    simp [markInProgress]
  have hcur : (execStep inp s).1.plan.tasks[pre.length]? =
      some (markInProgress c0 (s.ctx.iteration + 1)) := by
    rw [htasks]
    rcases isCompleteAux_pointwise inp.fs
        (pre ++ markInProgress c0 (s.ctx.iteration + 1) :: post) pre.length
        (markInProgress c0 (s.ctx.iteration + 1)) (getElem?_middle pre post _) with h | h
    · exact h
    · exact absurd h.2 hnd
  refine ⟨hctx, hout, hcur, ?_, ?_, ?_, ?_⟩
  · intro j t hj ht
    rw [htasks]
    have htj : (pre ++ markInProgress c0 (s.ctx.iteration + 1) :: post)[j]? = some t := by
      rw [getElem?_middle_ne pre post _ t0 j hj, ← hts]
      exact ht
    rcases isCompleteAux_pointwise inp.fs _ j t htj with h | h
    · exact Or.inl h
    · exact Or.inr h
  · intro t
    exact ⟨(verify_completion_core inp.fs t).2.2.2.1,
      (verify_completion_core inp.fs t).2.2.2.2.2.2.2.2.2.1,
      (verify_completion_core inp.fs t).2.2.2.2.1,
      (verify_completion_core inp.fs t).2.2.2.2.2.1,
      (verify_completion_core inp.fs t).2.2.2.2.2.2.2.1⟩
  · intro l
    exact foldSteps_preserves_stuck l _ pre.length _ hcur hna hnd
  · intro ts j u hu hip pre2 c2 post2 hsel2
    refine selectNext_not_at ts j u hu ?_ pre2 c2 post2 hsel2
    intro ha
    rcases ha with h1 | h2
    · rw [hip] at h1
      simp at h1
    · rw [hip] at h2
      simp at h2

/-- C10 witness: the amended statement on the concrete `Clarify` run. -/
theorem clarify_or_toolless_iteration_witness :
    (execStep inpClarifyN sDonePend).1.ctx = bumpCtx sDonePend.ctx
    ∧ (execStep inpClarifyN sDonePend).2 = StepOutcome.proceed
    ∧ (execStep inpClarifyN sDonePend).1.plan.tasks[([taskDoneA] : List TaskState).length]? =
        some (markInProgress taskPendB (sDonePend.ctx.iteration + 1)) :=
  ⟨(clarify_or_toolless_iteration inpClarifyN sDonePend [taskDoneA] taskPendB []
      (by decide) (Or.inr rfl) rfl).1,
   (clarify_or_toolless_iteration inpClarifyN sDonePend [taskDoneA] taskPendB []
      (by decide) (Or.inr rfl) rfl).2.1,
   (clarify_or_toolless_iteration inpClarifyN sDonePend [taskDoneA] taskPendB []
      (by decide) (Or.inr rfl) rfl).2.2.1⟩

/-! ### C2: the circuit breaker -/

/-- Classification of a failing fall-through (tool/clarify) iteration. -/
theorem failing_toolpath_cases (inp : StepInput) (s : LoopState)
    (pre : List TaskState) (c0 : TaskState) (post : List TaskState)
    (hsel : selectNext s.plan.tasks = some (pre, c0, post))
    (hty : inp.action.type = ActionType.tool_use ∨ inp.action.type = ActionType.clarify)
    (hfail : failingStep inp s) :
    (s.ctx.max_consecutive_errors ≤ s.ctx.consecutive_errors + 1 →
      (execStep inp s).2 = StepOutcome.halted
      ∧ ∃ mid, (execStep inp s).1.plan.tasks = pre ++ mid :: post
          ∧ mid.status = TaskStatus.failed
          ∧ ∃ kind, (kind = "validation failures" ∨ kind = "errors"
                ∨ kind = "verification failures")
              ∧ mid.error = some (stoppedMsg (s.ctx.consecutive_errors + 1) kind))
    ∧ (s.ctx.consecutive_errors + 1 < s.ctx.max_consecutive_errors →
        (execStep inp s).2 = StepOutcome.proceed) := by
  unfold failingStep at hfail
  rw [execStep_eq_toolBranch inp s pre c0 post hsel hty] at hfail ⊢
  rcases toolBranch_cases inp (bumpCtx s.ctx) s.plan pre
      (markInProgress c0 (s.ctx.iteration + 1)) post with
    ⟨hd, heq⟩ | ⟨cur1, hcur1, hd, hcase⟩
  · exfalso
    rw [heq, (finishIter_parts _ _ _ _).1] at hfail
    simp [bumpCtx] at hfail
  · rcases hcase with ⟨hsd, heq⟩ | ⟨hsd, hf, ⟨hstop, heq⟩ | ⟨hstop, heq⟩⟩ |
        ⟨hsd, hsc, hvf, ⟨hstop, heq⟩ | ⟨hstop, heq⟩⟩ | ⟨hsd, hsc, hvf, heq⟩
    · exfalso
      rw [heq, (finishIter_parts _ _ _ _).1] at hfail
      simp [AgentContext.reset_error_counter, AgentContext.add_tool_result, bumpCtx] at hfail
    · have hle : s.ctx.max_consecutive_errors ≤ s.ctx.consecutive_errors + 1 := by
        simpa [AgentContext.should_stop_due_to_errors, AgentContext.add_error,
          AgentContext.add_tool_result, bumpCtx] using hstop
      rw [heq]
      exact ⟨fun _ => ⟨rfl, _, rfl, rfl, "errors", Or.inr (Or.inl rfl), rfl⟩,
        fun hlt => absurd hle (by omega)⟩
    · have hnle : ¬s.ctx.max_consecutive_errors ≤ s.ctx.consecutive_errors + 1 := by
        simpa [AgentContext.should_stop_due_to_errors, AgentContext.add_error,
          AgentContext.add_tool_result, bumpCtx] using hstop
      have hc1 : cur1.status = TaskStatus.failed := by
        rw [hcur1, update_task_state_fail _ _ _ _ _ hf]
      rw [heq]
      refine ⟨fun hle => absurd hle hnle, fun _ => ?_⟩
      refine (finishIter_parts _ _ _ _).2.2.mpr ?_
      refine isCompleteAux_false_of_not_done _ _ ⟨cur1, ?_, ?_⟩
      · exact List.mem_append.mpr (Or.inr (List.mem_cons_self _ _))
      · rw [hc1]
        simp
    · have hle : s.ctx.max_consecutive_errors ≤ s.ctx.consecutive_errors + 1 := by
        simpa [AgentContext.should_stop_due_to_errors, AgentContext.add_error,
          AgentContext.add_tool_result, bumpCtx] using hstop
      rw [heq]
      refine ⟨fun _ => ⟨rfl, _, rfl, ?_, "verification failures", Or.inr (Or.inr rfl), rfl⟩,
        fun hlt => absurd hle (by omega)⟩
      exact hvf
    · have hnle : ¬s.ctx.max_consecutive_errors ≤ s.ctx.consecutive_errors + 1 := by
        simpa [AgentContext.should_stop_due_to_errors, AgentContext.add_error,
          AgentContext.add_tool_result, bumpCtx] using hstop
      rw [heq]
      refine ⟨fun hle => absurd hle hnle, fun _ => ?_⟩
      refine (finishIter_parts _ _ _ _).2.2.mpr ?_
      refine isCompleteAux_false_of_not_done _ _ ⟨cur1, ?_, ?_⟩
      · exact List.mem_append.mpr (Or.inr (List.mem_cons_self _ _))
      · rw [hvf]
        simp
    · exfalso
      rw [heq, (finishIter_parts _ _ _ _).1] at hfail
      simp [AgentContext.add_tool_result, bumpCtx] at hfail

/-- Every failing iteration halts exactly when the incremented counter
reaches the cap (force-marking the selected task `Failed` with a
stopped-after message), and proceeds otherwise. -/
theorem failingStep_cases (inp : StepInput) (u : LoopState)
    (hfail : failingStep inp u) :
    (u.ctx.max_consecutive_errors ≤ u.ctx.consecutive_errors + 1 →
      (execStep inp u).2 = StepOutcome.halted
      ∧ ∃ pre c0 post mid,
          selectNext u.plan.tasks = some (pre, c0, post)
          ∧ (execStep inp u).1.plan.tasks = pre ++ mid :: post
          ∧ mid.status = TaskStatus.failed
          ∧ ∃ kind, (kind = "validation failures" ∨ kind = "errors"
                ∨ kind = "verification failures")
              ∧ mid.error = some (stoppedMsg (u.ctx.consecutive_errors + 1) kind))
    ∧ (u.ctx.consecutive_errors + 1 < u.ctx.max_consecutive_errors →
        (execStep inp u).2 = StepOutcome.proceed) := by
  cases hsel : selectNext u.plan.tasks with
  | none =>
    exfalso
    unfold failingStep at hfail
    rw [execStep_exhausted inp u hsel] at hfail
    simp at hfail
  | some x =>
    obtain ⟨pre, c0, post⟩ := x
    cases hty : inp.action.type
    case complete =>
      unfold failingStep at hfail
      rw [execStep_eq_completeBranch inp u pre c0 post hsel hty] at hfail ⊢
      rcases completeBranch_cases inp.fs (bumpCtx u.ctx) u.plan pre
          (markInProgress c0 (u.ctx.iteration + 1)) post with
        ⟨hv, heq⟩ | ⟨hv, hstop, heq⟩ | ⟨hv, hstop, heq⟩
      · exfalso
        rw [heq] at hfail
        simp [AgentContext.reset_error_counter, bumpCtx] at hfail
      · have hle : u.ctx.max_consecutive_errors ≤ u.ctx.consecutive_errors + 1 := by
          simpa [AgentContext.should_stop_due_to_errors, AgentContext.add_error, bumpCtx]
            using hstop
        rw [heq]
        exact ⟨fun _ => ⟨rfl, pre, c0, post, _, rfl, rfl, rfl, "validation failures",
            Or.inl rfl, rfl⟩,
          fun hlt => absurd hle (by omega)⟩
      · have hnle : ¬u.ctx.max_consecutive_errors ≤ u.ctx.consecutive_errors + 1 := by
          simpa [AgentContext.should_stop_due_to_errors, AgentContext.add_error, bumpCtx]
            using hstop
        rw [heq]
        exact ⟨fun hle => absurd hle hnle, fun _ => rfl⟩
    case error =>
      rw [execStep_eq_errorBranch inp u pre c0 post hsel hty]
      rcases errorBranch_cases (bumpCtx u.ctx) u.plan pre
          (markInProgress c0 (u.ctx.iteration + 1)) post inp.action.message with
        ⟨hstop, heq⟩ | ⟨hstop, heq⟩
      · have hle : u.ctx.max_consecutive_errors ≤ u.ctx.consecutive_errors + 1 := by
          simpa [AgentContext.should_stop_due_to_errors, AgentContext.add_error, bumpCtx]
            using hstop
        rw [heq]
        exact ⟨fun _ => ⟨rfl, pre, c0, post, _, rfl, rfl, rfl, "errors",
            Or.inr (Or.inl rfl), rfl⟩,
          fun hlt => absurd hle (by omega)⟩
      · have hnle : ¬u.ctx.max_consecutive_errors ≤ u.ctx.consecutive_errors + 1 := by
          simpa [AgentContext.should_stop_due_to_errors, AgentContext.add_error, bumpCtx]
            using hstop
        rw [heq]
        exact ⟨fun hle => absurd hle hnle, fun _ => rfl⟩
    case tool_use =>
      obtain ⟨h1, h2⟩ := failing_toolpath_cases inp u pre c0 post hsel (Or.inl hty) hfail
      refine ⟨fun hle => ⟨(h1 hle).1, pre, c0, post, ?_⟩, h2⟩
      obtain ⟨mid, hm1, hm2, hm3⟩ := (h1 hle).2
      exact ⟨mid, rfl, hm1, hm2, hm3⟩
    case clarify =>
      obtain ⟨h1, h2⟩ := failing_toolpath_cases inp u pre c0 post hsel (Or.inr hty) hfail
      refine ⟨fun hle => ⟨(h1 hle).1, pre, c0, post, ?_⟩, h2⟩
      obtain ⟨mid, hm1, hm2, hm3⟩ := (h1 hle).2
      exact ⟨mid, rfl, hm1, hm2, hm3⟩

/-- Shifting the unguarded trace by one iteration. -/
theorem pureTrace_shift (inputs : Nat → StepInput) (s : LoopState) :
    ∀ i, pureTrace inputs ((execStep (inputs s.ctx.iteration) s).1) i =
      pureTrace inputs s (i + 1) := by
  intro i
  induction i with
  | zero => rfl
  | succ i ih =>
    show (execStep
        (inputs (pureTrace inputs ((execStep (inputs s.ctx.iteration) s).1) i).ctx.iteration)
        (pureTrace inputs ((execStep (inputs s.ctx.iteration) s).1) i)).1 =
      (execStep (inputs (pureTrace inputs s (i + 1)).ctx.iteration)
        (pureTrace inputs s (i + 1))).1
    rw [ih]

/-- If the next `k ≥ 1` iterations all fail and the counter is within `k` of
the cap, the run is insensitive to any extra fuel: it exits within `k`
iterations. -/
theorem breaker_aux (inputs : Nat → StepInput) :
    ∀ (k : Nat) (s : LoopState),
      (∀ i < k, failingStep (inputs (pureTrace inputs s i).ctx.iteration)
        (pureTrace inputs s i)) →
      s.ctx.max_consecutive_errors ≤ s.ctx.consecutive_errors + k →
      1 ≤ k →
      ∀ fuel, runAux inputs (k + fuel) s = runAux inputs k s := by
  intro k
  induction k with
  | zero =>
    intro s _ _ h1
    exact absurd h1 (by omega)
  | succ k ih =>
    intro s hfail hle hk1 fuel
    have hadd : k + 1 + fuel = (k + fuel) + 1 := by omega
    rw [hadd]
    by_cases hguard : s.ctx.iteration < s.ctx.max_iterations
    · simp only [runAux]
      rw [if_pos hguard, if_pos hguard]
      cases hstep : execStep (inputs s.ctx.iteration) s with
      | mk s2 out =>
        have h0 : failingStep (inputs s.ctx.iteration) s := hfail 0 (by omega)
        have hs2 : (execStep (inputs s.ctx.iteration) s).1 = s2 := by rw [hstep]
        cases out with
        | proceed =>
          rcases Nat.eq_zero_or_pos k with hk0 | hkpos
          · exfalso
            subst hk0
            have hhalt := (failingStep_cases (inputs s.ctx.iteration) s h0).1 (by omega)
            obtain ⟨hh, _⟩ := hhalt
            rw [hstep] at hh
            simp at hh
          · have hfail2 : ∀ i < k,
                failingStep (inputs (pureTrace inputs s2 i).ctx.iteration)
                  (pureTrace inputs s2 i) := by
              intro i hi
              have h := hfail (i + 1) (by omega)
              rw [← pureTrace_shift inputs s i, hs2] at h
              exact h
            have hce2 : s2.ctx.consecutive_errors = s.ctx.consecutive_errors + 1 := by
              unfold failingStep at h0
              rw [hs2] at h0
              exact h0
            have hmax2 : s2.ctx.max_consecutive_errors = s.ctx.max_consecutive_errors := by
              rw [← hs2]
              exact (execStep_ctx_fields (inputs s.ctx.iteration) s).2.2
            show runAux inputs (k + fuel) s2 = runAux inputs k s2
            exact ih s2 hfail2 (by omega) hkpos fuel
        | completed => rfl
        | halted => rfl
        | exhausted => rfl
    · simp only [runAux]
      rw [if_neg hguard, if_neg hguard]

/-- C2: if the consecutive-error counter starts at zero, the cap is positive,
and each of the next `max_consecutive_errors` iterations fails (the counter
is incremented), then the run exits within `max_consecutive_errors`
iterations — extra fuel (a larger `max_iterations` budget) never changes the
result.  Moreover every failing iteration halts the loop exactly when the
incremented counter reaches the cap, in which case the selected task is
force-marked `Failed` with a "Stopped after N consecutive ..." error
message; below the cap the failing iteration lets the loop proceed. -/
theorem circuit_breaker_halts (inputs : Nat → StepInput) (s : LoopState)
    (hce : s.ctx.consecutive_errors = 0)
    (hpos : 0 < s.ctx.max_consecutive_errors)
    (hfail : ∀ i < s.ctx.max_consecutive_errors,
      failingStep (inputs (pureTrace inputs s i).ctx.iteration) (pureTrace inputs s i)) :
    (∀ fuel, runAux inputs (s.ctx.max_consecutive_errors + fuel) s =
        runAux inputs s.ctx.max_consecutive_errors s)
    ∧ (∀ (inp : StepInput) (u : LoopState), failingStep inp u →
        (u.ctx.max_consecutive_errors ≤ u.ctx.consecutive_errors + 1 →
          (execStep inp u).2 = StepOutcome.halted
          ∧ ∃ pre c0 post mid,
              selectNext u.plan.tasks = some (pre, c0, post)
              ∧ (execStep inp u).1.plan.tasks = pre ++ mid :: post
              ∧ mid.status = TaskStatus.failed
              ∧ ∃ kind, (kind = "validation failures" ∨ kind = "errors"
                    ∨ kind = "verification failures")
                  ∧ mid.error = some (stoppedMsg (u.ctx.consecutive_errors + 1) kind))
        ∧ (u.ctx.consecutive_errors + 1 < u.ctx.max_consecutive_errors →
            (execStep inp u).2 = StepOutcome.proceed)) := by
  refine ⟨?_, fun inp u hf => failingStep_cases inp u hf⟩
  intro fuel
  exact breaker_aux inputs s.ctx.max_consecutive_errors s hfail (by omega) hpos fuel

/-- C2 witness: a concrete run fed only failing tool calls exits within the
cap of 4 iterations however much extra fuel the loop is given. -/
theorem circuit_breaker_halts_witness :
    runAux (fun _ => inpFail) (sPend.ctx.max_consecutive_errors + 6) sPend =
      runAux (fun _ => inpFail) sPend.ctx.max_consecutive_errors sPend :=
  (circuit_breaker_halts (fun _ => inpFail) sPend rfl (by decide) (by decide)).1 6
